import Mathlib

/-!
# dhcp-discover: packet codec, datagram validation, read loop and attempts

A shallow embedding of `cmd/dhcp-discover/main.go`.

* A Go `[]byte` is a `List Nat`; every byte the program itself writes is reduced
  modulo 256 where the Go code converts with `byte(...)`.
* Indexing a slice is fallible in Go (a run-time panic), so code that indexes the
  receive buffer runs in `Traced`: it records every index it evaluates and ends
  either with a value or with a fault.
* The option scan is a `for` loop whose variable grows by at least two per
  iteration; it is embedded with an explicit iteration budget, and running out of
  the budget is a fault of its own, so that termination is a theorem and not an
  assumption.
* The `verbose` flag only selects `log.Printf` calls; logging has no effect on the
  control flow or on the results and is left out.
* The network is a parameter: `readResponses` gets the list of results its reads
  return, the attempt loop of `main` gets, per attempt, whether the socket opens,
  whether the send succeeds and what the reads return. The map `servers` is the
  list of its keys.
-/

namespace DhcpDiscover

/-! ## Constants -/

/-- Constant `dhcpServerPort`. -/
def dhcpServerPort : Nat := 67

/-- Constant `dhcpClientPort`. -/
def dhcpClientPort : Nat := 68

/-- Constant `minPacketSize`. -/
def minPacketSize : Nat := 300

/-- Size of the receive buffer, `make([]byte, 1500)` in `readResponses`. -/
def recvBufSize : Nat := 1500

/-! ## Executions that index a slice -/

/-- Abnormal ends of an execution. -/
inductive Fault where
  /-- Go run-time panic: index out of range. -/
  | indexOutOfRange (i : Nat)
  /-- Go run-time panic: slice bounds out of range in `s[lo:hi]`. -/
  | sliceOutOfRange (lo hi : Nat)
  /-- Go run-time panic: integer divide by zero. -/
  | divideByZero
  /-- The iteration budget of the embedding was used up. -/
  | outOfFuel
  deriving DecidableEq, Repr

/-- How an execution ends. -/
inductive Outcome (α : Type) where
  | done (a : α)
  | fault (f : Fault)
  deriving DecidableEq, Repr

namespace Outcome

/-- Sequencing of executions: a fault ends the execution. -/
def andThen {α β : Type} (m : Outcome α) (k : α → Outcome β) : Outcome β :=
  match m with
  | .done a => k a
  | .fault f => .fault f

instance : Monad Outcome where
  pure := .done
  bind := andThen

end Outcome

/-- An execution over the receive buffer: the indices at which the buffer was
indexed, in program order, and the way the execution ended. -/
structure Traced (α : Type) where
  reads : List Nat
  outcome : Outcome α
  deriving DecidableEq, Repr

namespace Traced

/-- Finish with a value, reading nothing. -/
def ret {α : Type} (a : α) : Traced α := ⟨[], .done a⟩

/-- Stop with a fault, reading nothing. -/
def fail {α : Type} (f : Fault) : Traced α := ⟨[], .fault f⟩

/-- Sequencing: the continuation runs only when the first part ended normally. -/
def andThen {α β : Type} (m : Traced α) (k : α → Traced β) : Traced β :=
  match m.outcome with
  | .done a => ⟨m.reads ++ (k a).reads, (k a).outcome⟩
  | .fault f => ⟨m.reads, .fault f⟩

instance : Monad Traced where
  pure := ret
  bind := andThen

end Traced

/-- The Go expression `buf[i]`. -/
def index (buf : List Nat) (i : Nat) : Traced Nat :=
  match buf[i]? with
  | some b => ⟨[i], .done b⟩
  | none => ⟨[i], .fault (.indexOutOfRange i)⟩

/-- The Go assignment `b[i] = v`. -/
def store (b : List Nat) (i v : Nat) : Outcome (List Nat) :=
  if i < b.length then .done (b.set i v) else .fault (.indexOutOfRange i)

/-- The Go call `copy(dst[lo:hi], src)`: the slice expression needs
`lo ≤ hi ≤ len(dst)`, and `min(hi - lo, len(src))` bytes are copied. -/
def copyInto (dst : List Nat) (lo hi : Nat) (src : List Nat) : Outcome (List Nat) :=
  if lo ≤ hi ∧ hi ≤ dst.length then
    .done (dst.take lo ++ src.take (hi - lo) ++ dst.drop (lo + min (hi - lo) src.length))
  else .fault (.sliceOutOfRange lo hi)

/-- The magic cookie, `[]byte{99, 130, 83, 99}`. -/
def magicCookie : List Nat := [99, 130, 83, 99]

/-! ## Big-endian fields (`encoding/binary`) -/

/-- The value `binary.BigEndian.Uint32` computes from four bytes:
`uint32(b[3]) | uint32(b[2])<<8 | uint32(b[1])<<16 | uint32(b[0])<<24`.
For bytes (values below 256) the four shifted fields do not overlap and stay below
`2^32`, so nothing is cut off; `be32_eq_sum` gives the value as a number. -/
def be32 (b0 b1 b2 b3 : Nat) : Nat :=
  b3 ||| b2 <<< 8 ||| b1 <<< 16 ||| b0 <<< 24

/-- The call `binary.BigEndian.Uint32(buf[off:off+4])`. -/
def bigEndianUint32 (buf : List Nat) (off : Nat) : Traced Nat := do
  let b3 ← index buf (off + 3)
  let b2 ← index buf (off + 2)
  let b1 ← index buf (off + 1)
  let b0 ← index buf off
  pure (be32 b0 b1 b2 b3)

/-- The call `binary.BigEndian.PutUint32(b[off:off+4], v)`:
`b[0] = byte(v >> 24); b[1] = byte(v >> 16); b[2] = byte(v >> 8); b[3] = byte(v)`. -/
def putUint32 (b : List Nat) (off v : Nat) : Outcome (List Nat) := do
  let b ← store b off ((v >>> 24) % 256)
  let b ← store b (off + 1) ((v >>> 16) % 256)
  let b ← store b (off + 2) ((v >>> 8) % 256)
  store b (off + 3) (v % 256)

/-- The call `binary.BigEndian.PutUint16(b[off:off+2], v)`:
`b[0] = byte(v >> 8); b[1] = byte(v)`. -/
def putUint16 (b : List Nat) (off v : Nat) : Outcome (List Nat) := do
  let b ← store b off ((v >>> 8) % 256)
  store b (off + 1) (v % 256)

/-! ## `buildDiscoverPacket` (lines 217-249) -/

/-- The function `buildDiscoverPacket`. Of `iface` only `iface.HardwareAddr` is
used, so it is the parameter; `xid` is a `uint32`. -/
def buildDiscoverPacket (hardwareAddr : List Nat) (xid : Nat) : Outcome (List Nat) := do
  let packet := List.replicate minPacketSize 0
  -- BOOTP header
  let packet ← store packet 0 1
  let packet ← store packet 1 1
  let packet ← store packet 2 6
  let packet ← store packet 3 0
  let packet ← putUint32 packet 4 xid
  -- Always set the broadcast flag.
  let packet ← putUint16 packet 10 (1 <<< 15)
  -- Client MAC address
  let packet ←
    if hardwareAddr.length ≥ 6 then copyInto packet 28 34 (hardwareAddr.take 6)
    else pure packet
  -- Magic cookie
  let packet ← copyInto packet 236 240 magicCookie
  -- DHCP options
  let options := [53, 1, 1, 55, 4, 1, 3, 6, 15, 255]
  copyInto packet 240 packet.length options

/-! ## `readResponses`: validation of one datagram (lines 271-326) -/

/-- The condition of line 280,
`buf[236] != 99 || buf[237] != 130 || buf[238] != 83 || buf[239] != 99`,
with the short-circuit evaluation of `||`. -/
def cookieMismatch (buf : List Nat) : Traced Bool := do
  let b0 ← index buf 236
  if b0 ≠ 99 then pure true else do
  let b1 ← index buf 237
  if b1 ≠ 130 then pure true else do
  let b2 ← index buf 238
  if b2 ≠ 83 then pure true else do
  let b3 ← index buf 239
  pure (decide (b3 ≠ 99))

/-- The loop of lines 297-319, `for i := 240; i < n; { ... }`, started at `i` with
`msgType` still `0`; the result is the value of `msgType` when the loop is left.
Every `break` that is not preceded by the assignment leaves `msgType = 0`.
The first argument bounds the number of iterations. -/
def scanOptions (buf : List Nat) (n : Nat) : Nat → Nat → Traced Nat
  | 0, _ => Traced.fail .outOfFuel
  | fuel + 1, i =>
    if i < n then do
      let b ← index buf i
      if b = 255 then pure 0 else do
      let optType ← index buf i
      if i + 1 ≥ n then pure 0 else do
      let optLen ← index buf (i + 1)
      if i + 2 + optLen > n then pure 0 else
      if optType = 53 ∧ optLen ≥ 1 then index buf (i + 2)
      else scanOptions buf n fuel (i + (optLen + 2))
    else pure 0

/-- Lines 271-326 of `readResponses`: the checks made on a datagram of `n` bytes
that `ReadFromUDP` left in `buf`. The result is `true` when control reaches
"Adding a server" and `false` when one of the four `continue`s is taken.
The scan gets a budget of `n` iterations. -/
def validate (buf : List Nat) (n : Nat) (xid : Nat) : Traced Bool :=
  if n < 240 then pure false else do
  let bad ← cookieMismatch buf
  if bad then pure false else do
  let got ← bigEndianUint32 buf 4
  if got ≠ xid then pure false else do
  let msgType ← scanOptions buf n n 240
  if msgType ≠ 2 then pure false else pure true

/-- The datagram is accepted as a valid OFFER. -/
def accepts (buf : List Nat) (n : Nat) (xid : Nat) : Prop :=
  (validate buf n xid).outcome = .done true

instance (buf : List Nat) (n xid : Nat) : Decidable (accepts buf n xid) := by
  unfold accepts; infer_instance

/-- The datagram is rejected: one of the `continue`s of lines 276, 284, 293, 325
is taken. -/
def rejects (buf : List Nat) (n : Nat) (xid : Nat) : Prop :=
  (validate buf n xid).outcome = .done false

instance (buf : List Nat) (n xid : Nat) : Decidable (rejects buf n xid) := by
  unfold rejects; infer_instance

/-- A datagram for the examples: 4 zero bytes, the 4 transaction-id bytes, zero
bytes up to offset 236, the 4 cookie bytes at 236..239, the option bytes from 240. -/
def mkDatagram (x0 x1 x2 x3 : Nat) (cookie opts : List Nat) : List Nat :=
  List.replicate 4 0 ++ [x0, x1, x2, x3] ++ List.replicate 228 0 ++ cookie ++ opts


/-! ## `readResponses`: the server set (lines 328-336) -/

/-- The part of the state of `readResponses` that outlives an iteration: the keys
of the map `servers` (an address is the text `addr.IP.String()`) and the counter
`found`. -/
structure Tally where
  servers : List String
  found : Nat
  deriving DecidableEq, Repr

/-- Lines 329-336: `if _, exists := servers[serverIP]; !exists { ...; found++ }`. -/
def addServer (st : Tally) (serverIP : String) : Tally :=
  if serverIP ∈ st.servers then st
  else { servers := serverIP :: st.servers, found := st.found + 1 }

/-- One iteration of the loop for a datagram that was read without error
(lines 267-336): `n` bytes from `serverIP` are in `buf`. A `continue` leaves the
state as it is; an index out of range would end the program. -/
def handleDatagram (xid : Nat) (st : Tally) (buf : List Nat) (n : Nat)
    (serverIP : String) : Outcome Tally :=
  match (validate buf n xid).outcome with
  | .done true => .done (addServer st serverIP)
  | .done false => .done st
  | .fault f => .fault f

/-! ## The validation contract in the words of the specification (§4.2) -/

/-- The datagram itself: the `n` bytes that `ReadFromUDP` stored at the front of
the receive buffer. -/
def received (buf : List Nat) (n : Nat) : List Nat := buf.take n

/-- Byte `i` of a byte sequence (`0` beyond its end). -/
def byteAt (d : List Nat) (i : Nat) : Nat := d[i]?.getD 0

/-- Predicate 2 of §4.2: the four bytes at the magic-cookie offset equal
`0x63 0x82 0x53 0x63`. -/
def specCookieOk (d : List Nat) : Prop :=
  d[236]? = some 99 ∧ d[237]? = some 130 ∧ d[238]? = some 83 ∧ d[239]? = some 99

instance (d : List Nat) : Decidable (specCookieOk d) := by
  unfold specCookieOk; infer_instance

/-- The four bytes at an offset read big-endian, when the sequence has them. -/
def specUint32At (d : List Nat) (off : Nat) : Option Nat :=
  match d[off]?, d[off + 1]?, d[off + 2]?, d[off + 3]? with
  | some b0, some b1, some b2, some b3 => some (be32 b0 b1 b2 b3)
  | _, _, _, _ => none

/-- Predicate 4 of §4.2, first half: the (type, length, value) triplets of an option
area, read from its start; the reading stops at the End option (255) and at a
triplet that would run past the end of the area. -/
def specTriplets : List Nat → List (Nat × List Nat)
  | [] => []
  | [_] => []
  | t :: len :: rest =>
    if t = 255 then []
    else if len ≤ rest.length then (t, rest.take len) :: specTriplets (rest.drop len)
    else []
termination_by opts => opts.length
decreasing_by simp; omega

/-- Predicate 4 of §4.2, second half, in the words of the specification: option 53
(Message Type) is present among the triplets with its value equal to OFFER (2),
the one byte `2`. -/
def specOfferPresent (triplets : List (Nat × List Nat)) : Prop :=
  (53, [2]) ∈ triplets

instance (triplets : List (Nat × List Nat)) : Decidable (specOfferPresent triplets) := by
  unfold specOfferPresent; infer_instance

/-- The message type the scan of `readResponses` takes from a sequence of triplets:
the first value byte of the first option 53 whose length is at least 1; an option
53 of length 0 is passed over and further value bytes are not looked at. This is
the fourth predicate as the code has it, not as §4.2 words it (`specOfferPresent`). -/
def specMessageType : List (Nat × List Nat) → Option Nat
  | [] => none
  | (t, v) :: rest =>
    if t = 53 then
      match v with
      | b :: _ => some b
      | [] => specMessageType rest
    else specMessageType rest

/-- The bytes of a sequence of (type, value) options on the wire: each one is its
type byte, its length byte and its value bytes. -/
def encodeTriplets : List (Nat × List Nat) → List Nat
  | [] => []
  | (t, v) :: rest => t :: v.length :: (v ++ encodeTriplets rest)

/-- A receive buffer of `recvBufSize` bytes after a read: the datagram in front,
behind it what an earlier, longer datagram left there (bytes `9`). -/
def inBuffer (d : List Nat) : List Nat :=
  d ++ List.replicate (recvBufSize - d.length) 9

/-- The client hardware address field of §4.1: the first six bytes of the address
if it has at least six, else zeros. -/
def specChaddr (hardwareAddr : List Nat) : List Nat :=
  if hardwareAddr.length ≥ 6 then hardwareAddr.take 6 else List.replicate 6 0

/-- The value `msgType` has after the scan according to §4.2: the message type of
the triplets in the option area of the datagram, `0` when there is none. -/
def scannedType (buf : List Nat) (n : Nat) : Nat :=
  (specMessageType (specTriplets ((received buf n).drop 240))).getD 0

/-! ## `readResponses`: the read loop (lines 251-339) -/

/-- What one call `conn.ReadFromUDP(buf)` returns: a datagram with the text of its
sender address, an error that is not a timeout, or a timeout. -/
inductive ReadResult where
  | datagram (data : List Nat) (serverIP : String)
  | otherError
  | timeout
  deriving DecidableEq, Repr

/-- The effect of `ReadFromUDP` on the buffer when a datagram arrives: at most
`len(buf)` bytes of it are stored at the front, the bytes behind them keep what
earlier reads left there; the second component is the returned `n`. -/
def readFromUDP (buf data : List Nat) : List Nat × Nat :=
  let n := min data.length buf.length
  (data.take n ++ buf.drop n, n)

/-- The `for { ... }` loop of `readResponses`. `conn` lists what the successive
calls of `ReadFromUDP` return; when the list is used up the next call blocks until
the read deadline set by the caller (line 151) and returns a timeout. Only a
timeout leaves the loop (line 259); every other path is a `continue`. -/
def readLoop (xid : Nat) : List ReadResult → List Nat → Tally → Outcome Tally
  | [], _, st => .done st
  | .timeout :: _, _, st => .done st
  | .otherError :: conn, buf, st => readLoop xid conn buf st
  | .datagram data serverIP :: conn, buf, st =>
    match handleDatagram xid st (readFromUDP buf data).1 (readFromUDP buf data).2 serverIP with
    | .done st' => readLoop xid conn (readFromUDP buf data).1 st'
    | .fault f => .fault f

/-- The function `readResponses`: `found := 0`, `buf := make([]byte, 1500)`, the
loop, `return found`. The map `servers` is changed in place by the Go code; here the
keys after the call are returned next to `found`. -/
def readResponses (conn : List ReadResult) (xid : Nat) (servers : List String) :
    Outcome (Nat × List String) :=
  match readLoop xid conn (List.replicate recvBufSize 0) { servers := servers, found := 0 } with
  | .done st => .done (st.found, st.servers)
  | .fault f => .fault f

/-! ## `selectInterface` (lines 191-215) -/

/-- The fields of `net.Interface` the program uses. -/
structure Interface where
  name : String
  hardwareAddr : List Nat
  deriving DecidableEq, Repr

/-- The three errors `selectInterface` returns. -/
inductive SelectError where
  /-- Message `iface-index %d out of range (1-%d)`. -/
  | indexOutOfRange (index : Int) (count : Nat)
  /-- Message `interface named %q not found`. -/
  | nameNotFound (name : String)
  /-- Message `no active interfaces available`. -/
  | noActiveInterfaces
  deriving DecidableEq, Repr

/-- The pair `(net.Interface, error)` that `selectInterface` returns. -/
inductive Selected where
  | ok (ifc : Interface)
  | err (e : SelectError)
  deriving DecidableEq, Repr

/-- The Go expression `activeIfaces[idx]` for an `int` index. -/
def indexIface (activeIfaces : List Interface) (idx : Int) : Outcome Interface :=
  if idx < 0 then .fault (.indexOutOfRange 0)
  else match activeIfaces[idx.toNat]? with
    | some ifc => .done ifc
    | none => .fault (.indexOutOfRange idx.toNat)

/-- The function `selectInterface`; the flags `*ifaceIndexFlag` and `*ifaceNameFlag`
are parameters. -/
def selectInterface (ifaceIndexFlag : Int) (ifaceNameFlag : String)
    (activeIfaces : List Interface) : Outcome Selected :=
  if ifaceIndexFlag > 0 then
    let idx := ifaceIndexFlag - 1
    if idx < 0 ∨ idx ≥ activeIfaces.length then
      .done (.err (.indexOutOfRange ifaceIndexFlag activeIfaces.length))
    else do
      let ifc ← indexIface activeIfaces idx
      pure (.ok ifc)
  else if ifaceNameFlag ≠ "" then
    match activeIfaces.find? (fun ifc => ifc.name = ifaceNameFlag) with
    | some ifc => .done (.ok ifc)
    | none => .done (.err (.nameNotFound ifaceNameFlag))
  else if activeIfaces.length > 0 then do
    let ifc ← indexIface activeIfaces 0
    pure (.ok ifc)
  else .done (.err .noActiveInterfaces)

/-! ## `main`: the attempts (lines 118-160) -/

/-- What the network does in one attempt: `net.ListenUDP` fails, `conn.WriteToUDP`
fails, or the socket is open and `conn` is what its reads return. -/
inductive AttemptEnv where
  | socketError
  | sendError
  | listening (conn : List ReadResult)
  deriving DecidableEq, Repr

/-- The state of the attempt loop of `main`: the keys of `servers`, and, newest
first, the durations `*timeoutFlag / time.Duration(*retryCount)` that were added to
`time.Now()` for `SetReadDeadline`, one per attempt that got to listen. -/
structure Run where
  servers : List String
  budgets : List Int
  deriving DecidableEq, Repr

/-- Go's `a / b` on signed integers: truncated division, a run-time panic when
`b` is zero. -/
def goDiv (a b : Int) : Outcome Int :=
  if b = 0 then .fault .divideByZero else .done (Int.tdiv a b)

/-- The body of the attempt loop (lines 123-159). -/
def attemptBody (timeoutFlag retryCount : Int) (hardwareAddr : List Nat) (xid : Nat)
    (env : AttemptEnv) (run : Run) : Outcome Run :=
  match env with
  | .socketError => .done run
  | .sendError => do
    let _ ← buildDiscoverPacket hardwareAddr xid
    pure run
  | .listening conn => do
    let _ ← buildDiscoverPacket hardwareAddr xid
    let budget ← goDiv timeoutFlag retryCount
    let (_, servers) ← readResponses conn xid run.servers
    pure { servers := servers, budgets := budget :: run.budgets }

/-- The loop `for attempt := 0; attempt < *retryCount; attempt++ { ... }`, entered
with the given value of `attempt`; `envs attempt` is what the network does in that
attempt. The first argument bounds the number of iterations. -/
def attemptLoop (timeoutFlag retryCount : Int) (hardwareAddr : List Nat) (xid : Nat)
    (envs : Nat → AttemptEnv) : Nat → Int → Run → Outcome Run
  | 0, attempt, run =>
    if attempt < retryCount then .fault .outOfFuel else .done run
  | fuel + 1, attempt, run =>
    if attempt < retryCount then do
      let run ← attemptBody timeoutFlag retryCount hardwareAddr xid (envs attempt.toNat) run
      attemptLoop timeoutFlag retryCount hardwareAddr xid envs fuel (attempt + 1) run
    else .done run

/-- Lines 118-160 of `main`: `servers := make(map[string]struct{})` and the attempt
loop from `attempt = 0`, with a budget of `retryCount` iterations. -/
def discover (timeoutFlag retryCount : Int) (hardwareAddr : List Nat) (xid : Nat)
    (envs : Nat → AttemptEnv) : Outcome Run :=
  attemptLoop timeoutFlag retryCount hardwareAddr xid envs retryCount.toNat 0
    { servers := [], budgets := [] }

/-! ## The attempt in the words of the specification (§3, §4.3) -/

/-- A datagram, as `ReadFromUDP` stores it (cut to the size of the receive buffer),
is a valid OFFER for the transaction id. -/
def validOffer (xid : Nat) (data : List Nat) : Prop :=
  accepts (data.take recvBufSize) (min data.length recvBufSize) xid

instance (xid : Nat) (data : List Nat) : Decidable (validOffer xid data) := by
  unfold validOffer; infer_instance

/-- The results read before the first timeout. -/
def beforeTimeout : List ReadResult → List ReadResult
  | [] => []
  | .timeout :: _ => []
  | r :: conn => r :: beforeTimeout conn

/-- The sender addresses of the valid OFFERs read before the first timeout, in the
order of arrival. -/
def offerAddrs (xid : Nat) : List ReadResult → List String
  | [] => []
  | .timeout :: _ => []
  | .otherError :: conn => offerAddrs xid conn
  | .datagram data serverIP :: conn =>
    if validOffer xid data then serverIP :: offerAddrs xid conn else offerAddrs xid conn

/-- A well-formed OFFER of 244 bytes for the examples: transaction id 7, options
{53,1,2} and End. -/
def sampleOffer : List Nat := mkDatagram 0 0 0 7 magicCookie [53, 1, 2, 255]

/-! # Theorems -/

/-! ## Basic facts about `Traced` -/

theorem bind_eq_andThen {α β : Type} (m : Traced α) (k : α → Traced β) :
    (m >>= k) = Traced.andThen m k := rfl

theorem pure_eq_ret {α : Type} (a : α) : (pure a : Traced α) = ⟨[], .done a⟩ := rfl

theorem byteAt_of_lt {d : List Nat} {i : Nat} (h : i < d.length) :
    d[i]? = some (byteAt d i) := by
  simp [byteAt, List.getElem?_eq_getElem h]

theorem index_of_lt {buf : List Nat} {i : Nat} (h : i < buf.length) :
    index buf i = ⟨[i], .done (byteAt buf i)⟩ := by
  simp [index, byteAt_of_lt h]

theorem index_bind_of_lt {β : Type} {buf : List Nat} {i : Nat} (h : i < buf.length)
    (k : Nat → Traced β) :
    (index buf i >>= k) = ⟨i :: (k (byteAt buf i)).reads, (k (byteAt buf i)).outcome⟩ := by
  simp [bind_eq_andThen, Traced.andThen, index_of_lt h]

theorem index_reads (buf : List Nat) (i : Nat) : (index buf i).reads = [i] := by
  unfold index; split <;> rfl

theorem mem_reads_bind {α β : Type} (m : Traced α) (k : α → Traced β) (r : Nat)
    (h : r ∈ (m >>= k).reads) : r ∈ m.reads ∨ ∃ a, m.outcome = .done a ∧ r ∈ (k a).reads := by
  rw [bind_eq_andThen] at h
  unfold Traced.andThen at h
  split at h
  · next a ha =>
    rcases List.mem_append.mp h with h1 | h2
    · exact Or.inl h1
    · exact Or.inr ⟨a, ha, h2⟩
  · exact Or.inl h

theorem lor_shiftLeft (a b i : Nat) (h : b < 2 ^ i) : b ||| a <<< i = 2 ^ i * a + b := by
  rw [Nat.lor_comm, Nat.shiftLeft_eq, Nat.mul_comm]
  exact (Nat.mul_add_lt_is_or h a).symm

/-- On bytes, `be32` is the number whose base-256 digits are `b0 b1 b2 b3`, most
significant first. -/
theorem be32_eq_sum (b0 b1 b2 b3 : Nat) (h1 : b1 < 256) (h2 : b2 < 256) (h3 : b3 < 256) :
    be32 b0 b1 b2 b3 = b0 * 2 ^ 24 + b1 * 2 ^ 16 + b2 * 2 ^ 8 + b3 := by
  unfold be32
  rw [lor_shiftLeft _ _ 8 (by omega), lor_shiftLeft _ _ 16 (by omega),
    lor_shiftLeft _ _ 24 (by omega)]
  omega

/-! ## The option scan computes the message type of the triplet sequence -/

theorem specTriplets_nil : specTriplets [] = [] := by
  rw [specTriplets]

theorem specTriplets_single (t : Nat) : specTriplets [t] = [] := by
  rw [specTriplets]

theorem specTriplets_cons_cons (t len : Nat) (rest : List Nat) :
    specTriplets (t :: len :: rest) =
      if t = 255 then []
      else if len ≤ rest.length then (t, rest.take len) :: specTriplets (rest.drop len)
      else [] := by
  rw [specTriplets]

theorem specTriplets_end (rest : List Nat) : specTriplets (255 :: rest) = [] := by
  cases rest with
  | nil => exact specTriplets_single 255
  | cons len rest => simp [specTriplets_cons_cons]

theorem received_length {buf : List Nat} {n : Nat} (h : n ≤ buf.length) :
    (received buf n).length = n := by
  simp [received, h]

theorem received_getElem? {buf : List Nat} {n i : Nat} (h : i < n) :
    (received buf n)[i]? = buf[i]? := by
  simp [received, List.getElem?_take_of_lt h]

theorem received_drop_cons {buf : List Nat} {n i : Nat} (h : n ≤ buf.length) (hi : i < n) :
    (received buf n).drop i = byteAt buf i :: (received buf n).drop (i + 1) := by
  have hl : i < (received buf n).length := by rw [received_length h]; exact hi
  rw [List.drop_eq_getElem_cons hl]
  congr 1
  have h1 : (received buf n)[i]? = buf[i]? := received_getElem? hi
  rw [List.getElem?_eq_getElem hl, byteAt_of_lt (lt_of_lt_of_le hi h)] at h1
  exact Option.some.inj h1

theorem received_drop_nil {buf : List Nat} {n i : Nat} (hi : n ≤ i) :
    (received buf n).drop i = [] := by
  apply List.drop_eq_nil_of_le
  simp only [received, List.length_take]
  omega

/-- The loop leaves `msgType` equal to the message type of the triplets that start
at `i`, and `0` when they carry none; it ends normally within the budget. -/
theorem scanOptions_outcome (buf : List Nat) (n : Nat) (h : n ≤ buf.length) :
    ∀ (fuel i : Nat), n - i < fuel →
      (scanOptions buf n fuel i).outcome =
        .done ((specMessageType (specTriplets ((received buf n).drop i))).getD 0) := by
  intro fuel
  induction fuel with
  | zero => intro i hf; omega
  | succ fuel ih =>
    intro i hf
    unfold scanOptions
    by_cases hi : i < n
    · have hib : i < buf.length := lt_of_lt_of_le hi h
      rw [if_pos hi, index_bind_of_lt hib, received_drop_cons h hi]
      by_cases h255 : byteAt buf i = 255
      · simp [h255, specTriplets_end, specMessageType, pure_eq_ret]
      · rw [if_neg h255, index_bind_of_lt hib]
        by_cases hi1 : i + 1 ≥ n
        · simp [hi1, received_drop_nil hi1, specTriplets_single, specMessageType, pure_eq_ret]
        · have hi1' : i + 1 < n := by omega
          have hib1 : i + 1 < buf.length := lt_of_lt_of_le hi1' h
          rw [if_neg hi1, index_bind_of_lt hib1, received_drop_cons h hi1',
            specTriplets_cons_cons, if_neg h255]
          have hlen : ((received buf n).drop (i + 1 + 1)).length = n - (i + 2) := by
            simp [received_length h]
          by_cases hfit : i + 2 + byteAt buf (i + 1) > n
          · have : ¬ byteAt buf (i + 1) ≤ ((received buf n).drop (i + 1 + 1)).length := by
              rw [hlen]; omega
            rw [if_pos hfit, if_neg this]
            simp [specMessageType, pure_eq_ret]
          · have hle : byteAt buf (i + 1) ≤ ((received buf n).drop (i + 1 + 1)).length := by
              rw [hlen]; omega
            rw [if_neg hfit, if_pos hle]
            by_cases h53 : byteAt buf i = 53 ∧ byteAt buf (i + 1) ≥ 1
            · have hi2 : i + 2 < n := by omega
              rw [if_pos h53, index_of_lt (lt_of_lt_of_le hi2 h),
                received_drop_cons h hi2]
              obtain ⟨l, hl⟩ : ∃ l, byteAt buf (i + 1) = l + 1 := ⟨byteAt buf (i + 1) - 1, by omega⟩
              simp [specMessageType, h53.1, hl]
            · rw [if_neg h53]
              have hrec := ih (i + (byteAt buf (i + 1) + 2)) (by omega)
              rw [hrec, List.drop_drop]
              have hidx : i + 1 + 1 + byteAt buf (i + 1) = i + (byteAt buf (i + 1) + 2) := by omega
              rw [hidx]
              by_cases ht : byteAt buf i = 53
              · have hz : byteAt buf (i + 1) = 0 := by
                  by_contra hne; exact h53 ⟨ht, by omega⟩
                simp [specMessageType, ht, hz]
              · simp [specMessageType, ht]
    · rw [if_neg hi, received_drop_nil (by omega), specTriplets_nil]
      simp [specMessageType, pure_eq_ret]

/-! ## What `validate` computes -/

theorem outcome_bind_of_done {α β : Type} {m : Traced α} {a : α} (k : α → Traced β)
    (h : m.outcome = .done a) : (m >>= k).outcome = (k a).outcome := by
  simp [bind_eq_andThen, Traced.andThen, h]

theorem cookieMismatch_outcome {buf : List Nat} (h : 240 ≤ buf.length) :
    (cookieMismatch buf).outcome =
      .done (decide (¬ (byteAt buf 236 = 99 ∧ byteAt buf 237 = 130 ∧
        byteAt buf 238 = 83 ∧ byteAt buf 239 = 99))) := by
  unfold cookieMismatch
  rw [index_bind_of_lt (by omega)]
  by_cases h0 : byteAt buf 236 = 99
  · rw [if_neg (by simpa using h0), index_bind_of_lt (by omega)]
    by_cases h1 : byteAt buf 237 = 130
    · rw [if_neg (by simpa using h1), index_bind_of_lt (by omega)]
      by_cases h2 : byteAt buf 238 = 83
      · rw [if_neg (by simpa using h2), index_bind_of_lt (by omega)]
        simp [h0, h1, h2, pure_eq_ret]
      · simp [h0, h1, h2, pure_eq_ret]
    · simp [h0, h1, pure_eq_ret]
  · simp [h0, pure_eq_ret]

theorem bigEndianUint32_outcome {buf : List Nat} {off : Nat} (h : off + 4 ≤ buf.length) :
    (bigEndianUint32 buf off).outcome =
      .done (be32 (byteAt buf off) (byteAt buf (off + 1)) (byteAt buf (off + 2))
        (byteAt buf (off + 3))) := by
  unfold bigEndianUint32
  rw [index_bind_of_lt (by omega), index_bind_of_lt (by omega),
    index_bind_of_lt (by omega), index_bind_of_lt (by omega)]
  rfl

/-- With the datagram inside the buffer, `validate` ends normally, and with `true`
exactly when none of the four `continue`s is taken. -/
theorem validate_outcome {buf : List Nat} {n : Nat} (xid : Nat) (h : n ≤ buf.length) :
    (validate buf n xid).outcome =
      .done (decide (240 ≤ n ∧
        (byteAt buf 236 = 99 ∧ byteAt buf 237 = 130 ∧ byteAt buf 238 = 83 ∧
          byteAt buf 239 = 99) ∧
        be32 (byteAt buf 4) (byteAt buf 5) (byteAt buf 6) (byteAt buf 7) = xid ∧
        scannedType buf n = 2)) := by
  unfold validate
  by_cases hn : n < 240
  · rw [if_pos hn]
    simp [pure_eq_ret]
    omega
  · rw [if_neg hn, outcome_bind_of_done _ (cookieMismatch_outcome (by omega))]
    by_cases hc : byteAt buf 236 = 99 ∧ byteAt buf 237 = 130 ∧ byteAt buf 238 = 83 ∧
        byteAt buf 239 = 99
    · have hx : (bigEndianUint32 buf 4).outcome = _ := bigEndianUint32_outcome (by omega)
      rw [if_neg (by simpa using hc), outcome_bind_of_done _ hx]
      by_cases hxid : be32 (byteAt buf 4) (byteAt buf 5) (byteAt buf 6) (byteAt buf 7) = xid
      · rw [if_neg (by simpa using hxid),
          outcome_bind_of_done _ (scanOptions_outcome buf n h n 240 (by omega))]
        have hn' : 240 ≤ n := by omega
        by_cases hm : scannedType buf n = 2
        · have hm' := hm
          unfold scannedType at hm'
          rw [if_neg (by simpa using hm')]
          simp [pure_eq_ret, hn', hc, hxid, hm]
        · have hm' := hm
          unfold scannedType at hm'
          rw [if_pos (by simpa using hm')]
          simp [pure_eq_ret, hm]
      · rw [if_pos (by simpa using hxid)]
        simp [pure_eq_ret, hxid]
    · rw [if_pos (by rw [decide_eq_true_iff]; exact hc)]
      simp only [pure_eq_ret]
      congr 1
      symm
      rw [decide_eq_false_iff_not]
      tauto

/-! ## The predicates of §4.2 on the datagram and the bytes of the buffer -/

theorem specCookieOk_received {buf : List Nat} {n : Nat} (h : n ≤ buf.length) (hn : 240 ≤ n) :
    specCookieOk (received buf n) ↔
      (byteAt buf 236 = 99 ∧ byteAt buf 237 = 130 ∧ byteAt buf 238 = 83 ∧
        byteAt buf 239 = 99) := by
  unfold specCookieOk
  rw [received_getElem? (by omega), received_getElem? (by omega),
    received_getElem? (by omega), received_getElem? (by omega),
    byteAt_of_lt (show 236 < buf.length by omega), byteAt_of_lt (show 237 < buf.length by omega),
    byteAt_of_lt (show 238 < buf.length by omega), byteAt_of_lt (show 239 < buf.length by omega)]
  simp

theorem specUint32At_received {buf : List Nat} {n : Nat} (h : n ≤ buf.length) (hn : 240 ≤ n) :
    specUint32At (received buf n) 4 =
      some (be32 (byteAt buf 4) (byteAt buf 5) (byteAt buf 6) (byteAt buf 7)) := by
  unfold specUint32At
  rw [received_getElem? (by omega), received_getElem? (by omega),
    received_getElem? (by omega), received_getElem? (by omega),
    byteAt_of_lt (show 4 < buf.length by omega), byteAt_of_lt (show 4 + 1 < buf.length by omega),
    byteAt_of_lt (show 4 + 2 < buf.length by omega),
    byteAt_of_lt (show 4 + 3 < buf.length by omega)]

theorem specCookieOk_length {d : List Nat} (h : specCookieOk d) : 240 ≤ d.length := by
  have h3 := h.2.2.2
  by_contra hlt
  rw [List.getElem?_eq_none (by omega)] at h3
  exact absurd h3 (by simp)

theorem scannedType_eq_two {buf : List Nat} {n : Nat} :
    scannedType buf n = 2 ↔
      specMessageType (specTriplets ((received buf n).drop 240)) = some 2 := by
  unfold scannedType
  cases specMessageType (specTriplets ((received buf n).drop 240)) <;> simp

/-- The four predicates of §4.2 together. -/
theorem accepts_iff_spec {buf : List Nat} {n : Nat} (xid : Nat) (h : n ≤ buf.length) :
    accepts buf n xid ↔
      (240 ≤ n ∧ specCookieOk (received buf n) ∧
        specUint32At (received buf n) 4 = some xid ∧
        specMessageType (specTriplets ((received buf n).drop 240)) = some 2) := by
  unfold accepts
  rw [validate_outcome xid h]
  simp only [Outcome.done.injEq, decide_eq_true_eq]
  constructor
  · rintro ⟨hn, hc, hx, hm⟩
    refine ⟨hn, (specCookieOk_received h hn).mpr hc, ?_, scannedType_eq_two.mp hm⟩
    rw [specUint32At_received h hn, hx]
  · rintro ⟨hn, hc, hx, hm⟩
    refine ⟨hn, (specCookieOk_received h hn).mp hc, ?_, scannedType_eq_two.mpr hm⟩
    rw [specUint32At_received h hn] at hx
    exact Option.some.inj hx

theorem rejects_iff_not_accepts {buf : List Nat} {n : Nat} (xid : Nat) (h : n ≤ buf.length) :
    rejects buf n xid ↔ ¬ accepts buf n xid := by
  unfold rejects accepts
  rw [validate_outcome xid h]
  simp

/-- The loop body adds the sender exactly when the datagram is accepted. -/
theorem handleDatagram_eq {buf : List Nat} {n : Nat} (xid : Nat) (st : Tally)
    (serverIP : String) (h : n ≤ buf.length) :
    handleDatagram xid st buf n serverIP =
      .done (if accepts buf n xid then addServer st serverIP else st) := by
  have hv := validate_outcome xid h
  unfold handleDatagram accepts
  split
  · next hd => rw [if_pos hd]
  · next hd => rw [if_neg (by rw [hd]; simp)]
  · next f hd => rw [hv] at hd; exact absurd hd (by simp)

/-! ## Claim C1 -/

set_option maxRecDepth 100000 in
/-- C1, counterexample. Two datagrams that pass the length, cookie and
transaction-id checks. In the first the scan up to End reads the triplets
{53,1,5} and {53,1,2}, so option 53 is present with value 2, yet the datagram is
rejected. In the second the only option 53 has the two value bytes 2, 9, so no
option 53 has the value 2, yet the datagram is accepted. -/
theorem readResponses_accepts_iff_counterexample :
    (247 ≤ (inBuffer (mkDatagram 0 0 0 7 magicCookie [53, 1, 5, 53, 1, 2, 255])).length ∧
      240 ≤ 247 ∧
      specCookieOk
        (received (inBuffer (mkDatagram 0 0 0 7 magicCookie [53, 1, 5, 53, 1, 2, 255])) 247) ∧
      specUint32At
        (received (inBuffer (mkDatagram 0 0 0 7 magicCookie [53, 1, 5, 53, 1, 2, 255])) 247)
        4 = some 7 ∧
      specTriplets ((received
        (inBuffer (mkDatagram 0 0 0 7 magicCookie [53, 1, 5, 53, 1, 2, 255])) 247).drop 240) =
        [(53, [5]), (53, [2])] ∧
      specOfferPresent [(53, [5]), (53, [2])] ∧
      rejects (inBuffer (mkDatagram 0 0 0 7 magicCookie [53, 1, 5, 53, 1, 2, 255])) 247 7 ∧
      ¬ accepts (inBuffer (mkDatagram 0 0 0 7 magicCookie [53, 1, 5, 53, 1, 2, 255])) 247 7) ∧
    (245 ≤ (inBuffer (mkDatagram 0 0 0 7 magicCookie [53, 2, 2, 9, 255])).length ∧
      specTriplets ((received
        (inBuffer (mkDatagram 0 0 0 7 magicCookie [53, 2, 2, 9, 255])) 245).drop 240) =
        [(53, [2, 9])] ∧
      ¬ specOfferPresent [(53, [2, 9])] ∧
      accepts (inBuffer (mkDatagram 0 0 0 7 magicCookie [53, 2, 2, 9, 255])) 245 7) := by
  have e1 : (received (inBuffer (mkDatagram 0 0 0 7 magicCookie [53, 1, 5, 53, 1, 2, 255]))
      247).drop 240 = [53, 1, 5, 53, 1, 2, 255] := by decide
  have e2 : (received (inBuffer (mkDatagram 0 0 0 7 magicCookie [53, 2, 2, 9, 255]))
      245).drop 240 = [53, 2, 2, 9, 255] := by decide
  refine ⟨⟨by decide, by decide, by decide, by decide, ?_, by decide, by decide, by decide⟩,
    by decide, ?_, by decide, by decide⟩
  · rw [e1]
    simp [specTriplets_cons_cons, specTriplets_single]
  · rw [e2]
    simp [specTriplets_cons_cons, specTriplets_single]

/-- C1, amended. A datagram of `n` bytes in the receive buffer is accepted as a valid
OFFER if and only if the four predicates hold: `n ≥ 240`; bytes 236..239 are
`0x63 0x82 0x53 0x63`; bytes 4..7 read big-endian are the expected transaction id;
among the triplets read from offset 240, up to the End option or a triplet that
would run past the datagram, there is an option 53 of length at least 1 and the
first such option has 2 as its first value byte. In every other case the datagram
is rejected by one of the `continue`s. -/
theorem readResponses_accepts_iff (buf : List Nat) (n xid : Nat) (h : n ≤ buf.length) :
    (accepts buf n xid ↔
      (240 ≤ n ∧ specCookieOk (received buf n) ∧
        specUint32At (received buf n) 4 = some xid ∧
        specMessageType (specTriplets ((received buf n).drop 240)) = some 2)) ∧
    (rejects buf n xid ↔
      ¬ (240 ≤ n ∧ specCookieOk (received buf n) ∧
        specUint32At (received buf n) 4 = some xid ∧
        specMessageType (specTriplets ((received buf n).drop 240)) = some 2)) := by
  refine ⟨accepts_iff_spec xid h, ?_⟩
  rw [rejects_iff_not_accepts xid h, accepts_iff_spec xid h]

set_option maxRecDepth 100000 in
/-- Witness for C1 amended: a 244-byte OFFER with transaction id 7, stored in a buffer of
recvBufSize bytes that still holds stale bytes behind it. -/
theorem readResponses_accepts_iff_witness :
    244 ≤ (mkDatagram 0 0 0 7 [99, 130, 83, 99] [53, 1, 2, 255] ++
        List.replicate 1256 9).length ∧
    accepts (mkDatagram 0 0 0 7 [99, 130, 83, 99] [53, 1, 2, 255] ++
        List.replicate 1256 9) 244 7 ∧
    (accepts (mkDatagram 0 0 0 7 [99, 130, 83, 99] [53, 1, 2, 255] ++
        List.replicate 1256 9) 244 7 ↔
      (240 ≤ 244 ∧
        specCookieOk (received (mkDatagram 0 0 0 7 [99, 130, 83, 99] [53, 1, 2, 255] ++
          List.replicate 1256 9) 244) ∧
        specUint32At (received (mkDatagram 0 0 0 7 [99, 130, 83, 99] [53, 1, 2, 255] ++
          List.replicate 1256 9) 244) 4 = some 7 ∧
        specMessageType (specTriplets ((received (mkDatagram 0 0 0 7 [99, 130, 83, 99]
          [53, 1, 2, 255] ++ List.replicate 1256 9) 244).drop 240)) = some 2)) :=
  ⟨by decide, by decide,
    (readResponses_accepts_iff _ 244 7 (by decide)).1⟩

/-! ## Option streams given by their triplets -/

theorem specTriplets_encode_append (pre : List (Nat × List Nat)) (tail : List Nat)
    (hpre : ∀ p ∈ pre, p.1 ≠ 255) :
    specTriplets (encodeTriplets pre ++ tail) = pre ++ specTriplets tail := by
  induction pre with
  | nil => simp [encodeTriplets]
  | cons p pre ih =>
    obtain ⟨t, v⟩ := p
    have ht : t ≠ 255 := hpre (t, v) (List.mem_cons_self _ _)
    have ih' := ih (fun q hq => hpre q (List.mem_cons_of_mem _ hq))
    simp only [encodeTriplets, List.cons_append, List.append_assoc]
    rw [specTriplets_cons_cons, if_neg ht, if_pos (by simp), List.take_left, List.drop_left, ih']

theorem specMessageType_append (pre rest : List (Nat × List Nat))
    (hpre : ∀ p ∈ pre, p.1 = 53 → p.2 = []) :
    specMessageType (pre ++ rest) = specMessageType rest := by
  induction pre with
  | nil => rfl
  | cons p pre ih =>
    obtain ⟨t, v⟩ := p
    have ih' := ih (fun q hq => hpre q (List.mem_cons_of_mem _ hq))
    have hp := hpre (t, v) (List.mem_cons_self _ _)
    by_cases ht : t = 53
    · have hv : v = [] := hp ht
      subst hv
      simp [specMessageType, ht, ih']
    · simp [specMessageType, ht, ih']

/-! ## The indices `validate` reads -/

theorem scanOptions_reads (buf : List Nat) (n : Nat) :
    ∀ (fuel i r : Nat), r ∈ (scanOptions buf n fuel i).reads → r < n := by
  intro fuel
  induction fuel with
  | zero => intro i r hr; simp [scanOptions, Traced.fail] at hr
  | succ fuel ih =>
    intro i r hr
    unfold scanOptions at hr
    by_cases hi : i < n
    · rw [if_pos hi] at hr
      rcases mem_reads_bind _ _ _ hr with h1 | ⟨b, _, h2⟩
      · rw [index_reads] at h1; simp at h1; omega
      · by_cases hb : b = 255
        · simp [hb, pure_eq_ret] at h2
        · rw [if_neg hb] at h2
          rcases mem_reads_bind _ _ _ h2 with h3 | ⟨t, _, h4⟩
          · rw [index_reads] at h3; simp at h3; omega
          · by_cases hi1 : i + 1 ≥ n
            · simp [hi1, pure_eq_ret] at h4
            · rw [if_neg hi1] at h4
              rcases mem_reads_bind _ _ _ h4 with h5 | ⟨len, _, h6⟩
              · rw [index_reads] at h5; simp at h5; omega
              · by_cases hfit : i + 2 + len > n
                · simp [hfit, pure_eq_ret] at h6
                · rw [if_neg hfit] at h6
                  by_cases h53 : t = 53 ∧ len ≥ 1
                  · rw [if_pos h53, index_reads] at h6
                    simp at h6; omega
                  · rw [if_neg h53] at h6
                    exact ih _ r h6
    · simp [hi, pure_eq_ret] at hr

theorem bigEndianUint32_reads (buf : List Nat) (off r : Nat)
    (hr : r ∈ (bigEndianUint32 buf off).reads) : r < off + 4 := by
  unfold bigEndianUint32 at hr
  rcases mem_reads_bind _ _ _ hr with h | ⟨_, _, hr⟩
  · rw [index_reads] at h; simp at h; omega
  rcases mem_reads_bind _ _ _ hr with h | ⟨_, _, hr⟩
  · rw [index_reads] at h; simp at h; omega
  rcases mem_reads_bind _ _ _ hr with h | ⟨_, _, hr⟩
  · rw [index_reads] at h; simp at h; omega
  rcases mem_reads_bind _ _ _ hr with h | ⟨_, _, hr⟩
  · rw [index_reads] at h; simp at h; omega
  simp [pure_eq_ret] at hr

theorem cookieMismatch_reads (buf : List Nat) (r : Nat)
    (hr : r ∈ (cookieMismatch buf).reads) : r < 240 := by
  unfold cookieMismatch at hr
  rcases mem_reads_bind _ _ _ hr with h | ⟨b0, _, hr⟩
  · rw [index_reads] at h; simp at h; omega
  by_cases h0 : b0 ≠ 99
  · simp [h0, pure_eq_ret] at hr
  rw [if_neg h0] at hr
  rcases mem_reads_bind _ _ _ hr with h | ⟨b1, _, hr⟩
  · rw [index_reads] at h; simp at h; omega
  by_cases h1 : b1 ≠ 130
  · simp [h1, pure_eq_ret] at hr
  rw [if_neg h1] at hr
  rcases mem_reads_bind _ _ _ hr with h | ⟨b2, _, hr⟩
  · rw [index_reads] at h; simp at h; omega
  by_cases h2 : b2 ≠ 83
  · simp [h2, pure_eq_ret] at hr
  rw [if_neg h2] at hr
  rcases mem_reads_bind _ _ _ hr with h | ⟨b3, _, hr⟩
  · rw [index_reads] at h; simp at h; omega
  simp [pure_eq_ret] at hr

/-- Every index `validate` evaluates lies inside the received datagram. -/
theorem validate_reads (buf : List Nat) (n xid r : Nat)
    (hr : r ∈ (validate buf n xid).reads) : r < n := by
  unfold validate at hr
  by_cases hn : n < 240
  · simp [hn, pure_eq_ret] at hr
  rw [if_neg hn] at hr
  rcases mem_reads_bind _ _ _ hr with h | ⟨bad, _, hr⟩
  · have := cookieMismatch_reads buf r h; omega
  by_cases hb : bad = true
  · simp [hb, pure_eq_ret] at hr
  rw [if_neg hb] at hr
  rcases mem_reads_bind _ _ _ hr with h | ⟨got, _, hr⟩
  · have := bigEndianUint32_reads buf 4 r h; omega
  by_cases hg : got ≠ xid
  · simp [hg, pure_eq_ret] at hr
  rw [if_neg hg] at hr
  rcases mem_reads_bind _ _ _ hr with h | ⟨m, _, hr⟩
  · exact scanOptions_reads buf n n 240 r h
  by_cases hm : m ≠ 2
  · simp [hm, pure_eq_ret] at hr
  · simp [hm, pure_eq_ret] at hr

/-! ## Claims C2-C6 -/

set_option maxRecDepth 100000 in
/-- C2, counterexample. A datagram of 247 bytes with the cookie, the expected
transaction id 7 and the option stream {53,1,5}, {53,1,2}, End, which contains the
triplet {53,1,2} followed by the End byte, is rejected. And the datagram with the
stream {53,1,2}, {53,1,2}, End is still accepted when the 2 of the triplet in
front of End is replaced by 5. -/
theorem readResponses_accepts_offer_counterexample :
    (247 ≤ (inBuffer (mkDatagram 0 0 0 7 magicCookie [53, 1, 5, 53, 1, 2, 255])).length ∧
      240 ≤ 247 ∧
      specCookieOk
        (received (inBuffer (mkDatagram 0 0 0 7 magicCookie [53, 1, 5, 53, 1, 2, 255])) 247) ∧
      specUint32At
        (received (inBuffer (mkDatagram 0 0 0 7 magicCookie [53, 1, 5, 53, 1, 2, 255])) 247)
        4 = some 7 ∧
      (received (inBuffer (mkDatagram 0 0 0 7 magicCookie [53, 1, 5, 53, 1, 2, 255]))
        247).drop 240 = encodeTriplets [(53, [5])] ++ [53, 1, 2, 255] ∧
      rejects (inBuffer (mkDatagram 0 0 0 7 magicCookie [53, 1, 5, 53, 1, 2, 255])) 247 7) ∧
    ((received (inBuffer (mkDatagram 0 0 0 7 magicCookie [53, 1, 2, 53, 1, 2, 255]))
        247).drop 240 = encodeTriplets [(53, [2])] ++ [53, 1, 2, 255] ∧
      (received (inBuffer (mkDatagram 0 0 0 7 magicCookie [53, 1, 2, 53, 1, 5, 255]))
        247).drop 240 = encodeTriplets [(53, [2])] ++ [53, 1, 5, 255] ∧
      accepts (inBuffer (mkDatagram 0 0 0 7 magicCookie [53, 1, 2, 53, 1, 5, 255])) 247 7 ∧
      ¬ rejects (inBuffer (mkDatagram 0 0 0 7 magicCookie [53, 1, 2, 53, 1, 5, 255])) 247 7) := by
  refine ⟨⟨by decide, by decide, by decide, by decide, by decide, by decide⟩,
    by decide, by decide, by decide, by decide⟩

/-- C2, amended. A datagram of length at least 240 with the magic cookie at bytes
236..239, the expected transaction id at bytes 4..7 and an option stream made of
complete triplets `pre`, none of them End and none of them an option 53 carrying a
value, followed by the triplet {53,1,2} and the End byte is accepted, and the same
datagram with another value `v` in the place of the message type 2 is rejected;
`rest` is whatever follows End. -/
theorem readResponses_accepts_offer (buf : List Nat) (n xid : Nat)
    (pre : List (Nat × List Nat)) (v : Nat) (rest : List Nat)
    (h : n ≤ buf.length) (hn : 240 ≤ n)
    (hc : specCookieOk (received buf n))
    (hx : specUint32At (received buf n) 4 = some xid)
    (hpre : ∀ p ∈ pre, p.1 ≠ 255 ∧ (p.1 = 53 → p.2 = []))
    (hopts : (received buf n).drop 240 = encodeTriplets pre ++ [53, 1, v, 255] ++ rest) :
    (v = 2 → accepts buf n xid) ∧ (v ≠ 2 → rejects buf n xid) := by
  have hm : specMessageType (specTriplets ((received buf n).drop 240)) = some v := by
    rw [hopts, List.append_assoc, specTriplets_encode_append _ _ (fun p hp => (hpre p hp).1),
      specMessageType_append _ _ (fun p hp => (hpre p hp).2)]
    simp [specTriplets_cons_cons, specMessageType]
  constructor
  · intro hv
    rw [accepts_iff_spec xid h]
    exact ⟨hn, hc, hx, by rw [hm, hv]⟩
  · intro hv
    rw [rejects_iff_not_accepts xid h, accepts_iff_spec xid h]
    rintro ⟨_, _, _, h2⟩
    rw [hm] at h2
    exact hv (Option.some.inj h2)

set_option maxRecDepth 100000 in
/-- Witness for C2 amended: an OFFER for transaction id 7 whose option stream is a host-name
option, the message type and End is accepted; with message type 5 (ACK) in the
place of 2 it is rejected. -/
theorem readResponses_accepts_offer_witness :
    accepts (inBuffer (mkDatagram 0 0 0 7 magicCookie
      [12, 2, 104, 105, 53, 1, 2, 255])) 248 7 ∧
    rejects (inBuffer (mkDatagram 0 0 0 7 magicCookie
      [12, 2, 104, 105, 53, 1, 5, 255])) 248 7 :=
  ⟨(readResponses_accepts_offer
      (inBuffer (mkDatagram 0 0 0 7 magicCookie [12, 2, 104, 105, 53, 1, 2, 255])) 248 7
      [(12, [104, 105])] 2 [] (by decide) (by decide) (by decide) (by decide) (by decide)
      (by decide)).1 rfl,
   (readResponses_accepts_offer
      (inBuffer (mkDatagram 0 0 0 7 magicCookie [12, 2, 104, 105, 53, 1, 5, 255])) 248 7
      [(12, [104, 105])] 5 [] (by decide) (by decide) (by decide) (by decide) (by decide)
      (by decide)).2 (by decide)⟩

/-- C3. A datagram shorter than 240 bytes is rejected whatever its content and
whatever the expected transaction id, without a single read of the buffer: the
iteration leaves the server set and the count `found` as they were. -/
theorem readResponses_rejects_short (buf : List Nat) (n xid : Nat) (st : Tally)
    (serverIP : String) (hn : n < 240) :
    rejects buf n xid ∧ (validate buf n xid).reads = [] ∧
      handleDatagram xid st buf n serverIP = .done st := by
  have hv : validate buf n xid = ⟨[], .done false⟩ := by
    unfold validate
    rw [if_pos hn]
    rfl
  refine ⟨?_, ?_, ?_⟩
  · unfold rejects; rw [hv]
  · rw [hv]
  · unfold handleDatagram; rw [hv]

set_option maxRecDepth 100000 in
/-- Witness for C3: the first 239 bytes of a buffer that holds a complete OFFER. -/
theorem readResponses_rejects_short_witness :
    239 < 240 ∧
    rejects (inBuffer (mkDatagram 0 0 0 7 magicCookie [53, 1, 2, 255])) 239 7 ∧
    handleDatagram 7 ⟨["10.0.0.1"], 1⟩
      (inBuffer (mkDatagram 0 0 0 7 magicCookie [53, 1, 2, 255])) 239 "10.0.0.2" =
      .done ⟨["10.0.0.1"], 1⟩ :=
  ⟨by decide,
   (readResponses_rejects_short _ 239 7 ⟨["10.0.0.1"], 1⟩ "10.0.0.2" (by decide)).1,
   (readResponses_rejects_short _ 239 7 ⟨["10.0.0.1"], 1⟩ "10.0.0.2" (by decide)).2.2⟩

theorem rejects_of_not_cookie {buf : List Nat} {n : Nat} (xid : Nat) (h : n ≤ buf.length)
    (hc : ¬ specCookieOk (received buf n)) : rejects buf n xid := by
  rw [rejects_iff_not_accepts xid h, accepts_iff_spec xid h]
  exact fun hacc => hc hacc.2.1

theorem not_cookie_of_set {buf : List Nat} {n k v : Nat} (hlo : 236 ≤ k) (hhi : k ≤ 239)
    (hv : magicCookie[k - 236]? ≠ some v) : ¬ specCookieOk (received (buf.set k v) n) := by
  intro hc
  have hlen := specCookieOk_length hc
  have hn : 240 ≤ n := by
    simp only [received, List.length_take] at hlen
    omega
  have hb : 240 ≤ buf.length := by
    simp only [received, List.length_take, List.length_set] at hlen
    omega
  have hk : (received (buf.set k v) n)[k]? = some v := by
    rw [received_getElem? (by omega), List.getElem?_set_self (by omega)]
  obtain ⟨h0, h1, h2, h3⟩ := hc
  have hcases : k = 236 ∨ k = 237 ∨ k = 238 ∨ k = 239 := by omega
  rcases hcases with rfl | rfl | rfl | rfl
  · rw [hk] at h0; exact hv (by rw [h0]; rfl)
  · rw [hk] at h1; exact hv (by rw [h1]; rfl)
  · rw [hk] at h2; exact hv (by rw [h2]; rfl)
  · rw [hk] at h3; exact hv (by rw [h3]; rfl)

/-- C4. Every datagram whose bytes 236..239 differ from `0x63 0x82 0x53 0x63` in at
least one position is rejected; in particular, for every datagram and every
position `k` in 236..239, the datagram with byte `k` changed to a value other than
the cookie byte of that position is rejected. -/
theorem readResponses_rejects_bad_cookie (buf : List Nat) (n xid : Nat)
    (h : n ≤ buf.length) :
    (¬ specCookieOk (received buf n) → rejects buf n xid) ∧
    (∀ k v : Nat, 236 ≤ k → k ≤ 239 → magicCookie[k - 236]? ≠ some v →
      rejects (buf.set k v) n xid) := by
  refine ⟨rejects_of_not_cookie xid h, ?_⟩
  intro k v hlo hhi hv
  exact rejects_of_not_cookie xid (by rw [List.length_set]; exact h)
    (not_cookie_of_set hlo hhi hv)

set_option maxRecDepth 100000 in
/-- Witness for C4: an OFFER that is accepted, and rejected once byte 237 is changed
from `0x82` to `0x83`. -/
theorem readResponses_rejects_bad_cookie_witness :
    accepts (inBuffer (mkDatagram 0 0 0 7 magicCookie [53, 1, 2, 255])) 244 7 ∧
    rejects ((inBuffer (mkDatagram 0 0 0 7 magicCookie [53, 1, 2, 255])).set 237 131)
      244 7 :=
  ⟨by decide,
   (readResponses_rejects_bad_cookie
      (inBuffer (mkDatagram 0 0 0 7 magicCookie [53, 1, 2, 255])) 244 7 (by decide)).2
      237 131 (by decide) (by decide) (by decide)⟩

/-- C5. A datagram whose bytes 4..7, read big-endian, differ from the expected
transaction id is rejected; this holds whatever the rest of the datagram is, so in
particular for a datagram that is otherwise a well-formed OFFER (length at least
240, cookie, option 53 with value 2). -/
theorem readResponses_rejects_xid_mismatch (buf : List Nat) (n xid : Nat)
    (h : n ≤ buf.length)
    (hx : specUint32At (received buf n) 4 ≠ some xid) : rejects buf n xid := by
  rw [rejects_iff_not_accepts xid h, accepts_iff_spec xid h]
  exact fun hacc => hx hacc.2.2.1

set_option maxRecDepth 100000 in
/-- Witness for C5: an OFFER carrying transaction id `0x01020304` is accepted when
that id is expected and rejected when the expected id is `0x01020305`. -/
theorem readResponses_rejects_xid_mismatch_witness :
    accepts (inBuffer (mkDatagram 1 2 3 4 magicCookie [53, 1, 2, 255])) 244 16909060 ∧
    rejects (inBuffer (mkDatagram 1 2 3 4 magicCookie [53, 1, 2, 255])) 244 16909061 :=
  ⟨by decide,
   readResponses_rejects_xid_mismatch
      (inBuffer (mkDatagram 1 2 3 4 magicCookie [53, 1, 2, 255])) 244 16909061
      (by decide) (by decide)⟩

/-- C6. For every content of the 1500-byte receive buffer, every received length
`n ≤ 1500` and every expected transaction id, each index at which the validation
indexes the buffer (cookie bytes, transaction-id bytes, option type, option length,
value byte of option 53) is below `n`, and the validation ends normally with a
verdict: no index is out of range and the scan ends within its budget. -/
theorem readResponses_reads_in_bounds (buf : List Nat) (n xid : Nat)
    (hbuf : buf.length = recvBufSize) (hn : n ≤ recvBufSize) :
    (∀ r ∈ (validate buf n xid).reads, r < n) ∧
    (∃ verdict : Bool, (validate buf n xid).outcome = .done verdict) := by
  refine ⟨fun r hr => validate_reads buf n xid r hr, ?_⟩
  exact ⟨_, validate_outcome xid (by rw [hbuf]; exact hn)⟩

set_option maxRecDepth 100000 in
/-- Witness for C6: a datagram of 243 bytes whose last option declares 200 value
bytes; the reads stop at index 242. -/
theorem readResponses_reads_in_bounds_witness :
    (inBuffer (mkDatagram 0 0 0 7 magicCookie [12, 200, 1])).length = recvBufSize ∧
    (validate (inBuffer (mkDatagram 0 0 0 7 magicCookie [12, 200, 1])) 243 7).reads =
      [236, 237, 238, 239, 7, 6, 5, 4, 240, 240, 241] ∧
    (∀ r ∈ (validate (inBuffer (mkDatagram 0 0 0 7 magicCookie [12, 200, 1])) 243 7).reads,
      r < 243) :=
  ⟨by decide, by decide,
   (readResponses_reads_in_bounds
      (inBuffer (mkDatagram 0 0 0 7 magicCookie [12, 200, 1])) 243 7
      (by decide) (by decide)).1⟩

/-! ## The packet `buildDiscoverPacket` returns -/

set_option maxRecDepth 100000 in
theorem buildDiscoverPacket_long (a b c d e f : Nat) (tl : List Nat) (xid : Nat) :
    buildDiscoverPacket (a :: b :: c :: d :: e :: f :: tl) xid =
      .done ([1, 1, 6, 0, (xid >>> 24) % 256, (xid >>> 16) % 256, (xid >>> 8) % 256,
          xid % 256, 0, 0, 128, 0] ++ List.replicate 16 0 ++ [a, b, c, d, e, f] ++
        List.replicate 202 0 ++ magicCookie ++ [53, 1, 1, 55, 4, 1, 3, 6, 15, 255] ++
        List.replicate 50 0) := by
  simp [buildDiscoverPacket, store, putUint32, putUint16, copyInto, minPacketSize,
    magicCookie, Outcome.andThen, bind, pure, List.replicate, List.set, List.take, List.drop]

set_option maxRecDepth 100000 in
theorem buildDiscoverPacket_short (hw : List Nat) (xid : Nat) (h : hw.length < 6) :
    buildDiscoverPacket hw xid =
      .done ([1, 1, 6, 0, (xid >>> 24) % 256, (xid >>> 16) % 256, (xid >>> 8) % 256,
          xid % 256, 0, 0, 128, 0] ++ List.replicate 16 0 ++ List.replicate 6 0 ++
        List.replicate 202 0 ++ magicCookie ++ [53, 1, 1, 55, 4, 1, 3, 6, 15, 255] ++
        List.replicate 50 0) := by
  have hn : ¬ hw.length ≥ 6 := by omega
  simp [buildDiscoverPacket, store, putUint32, putUint16, copyInto, minPacketSize,
    magicCookie, Outcome.andThen, bind, pure, List.replicate, List.set, List.take, List.drop, h]

theorem specChaddr_length (hw : List Nat) : (specChaddr hw).length = 6 := by
  unfold specChaddr
  split
  · simp; omega
  · simp

/-- The packet in one piece: header, transaction id, flags, client hardware address
field, cookie, options, each at its offset, zeros everywhere else. -/
theorem buildDiscoverPacket_eq (hw : List Nat) (xid : Nat) :
    buildDiscoverPacket hw xid =
      .done ([1, 1, 6, 0, (xid >>> 24) % 256, (xid >>> 16) % 256, (xid >>> 8) % 256,
          xid % 256, 0, 0, 128, 0] ++ List.replicate 16 0 ++ specChaddr hw ++
        List.replicate 202 0 ++ magicCookie ++ [53, 1, 1, 55, 4, 1, 3, 6, 15, 255] ++
        List.replicate 50 0) := by
  by_cases h : hw.length ≥ 6
  · match hw, h with
    | a :: b :: c :: d :: e :: f :: tl, _ =>
      have hc : specChaddr (a :: b :: c :: d :: e :: f :: tl) = [a, b, c, d, e, f] := by
        simp [specChaddr]
      rw [buildDiscoverPacket_long, hc]
  · have hc : specChaddr hw = List.replicate 6 0 := by
      simp [specChaddr, h]
    rw [buildDiscoverPacket_short hw xid (by omega), hc]

/-- Reading back the four bytes `PutUint32` writes gives the value written. -/
theorem be32_putUint32 (x : Nat) (h : x < 2 ^ 32) :
    be32 ((x >>> 24) % 256) ((x >>> 16) % 256) ((x >>> 8) % 256) (x % 256) = x := by
  unfold be32
  simp only [Nat.shiftRight_eq_div_pow]
  rw [lor_shiftLeft _ _ 8 (by omega), lor_shiftLeft _ _ 16 (by omega),
    lor_shiftLeft _ _ 24 (by omega)]
  omega

/-- Outside the fields, every byte of a packet laid out like the one
`buildDiscoverPacket` returns is zero. -/
theorem layout_zero_elsewhere (x0 x1 x2 x3 : Nat) (C : List Nat) (hC : C.length = 6)
    (i : Nat) (hi : i < 300) (h1 : ¬ i ≤ 3) (h2 : ¬ (4 ≤ i ∧ i ≤ 7))
    (h3 : ¬ (10 ≤ i ∧ i ≤ 11)) (h4 : ¬ (28 ≤ i ∧ i ≤ 33)) (h5 : ¬ (236 ≤ i ∧ i ≤ 239))
    (h6 : ¬ (240 ≤ i ∧ i ≤ 249)) :
    ([1, 1, 6, 0, x0, x1, x2, x3, 0, 0, 128, 0] ++ List.replicate 16 0 ++ C ++
        List.replicate 202 0 ++ magicCookie ++ [53, 1, 1, 55, 4, 1, 3, 6, 15, 255] ++
        List.replicate 50 0)[i]? = some 0 := by
  unfold magicCookie
  simp only [List.getElem?_append, List.length_append, List.length_replicate, hC,
    List.length_cons, List.length_nil, List.getElem?_replicate]
  have hcase : i = 8 ∨ i = 9 ∨ 12 ≤ i := by omega
  rcases hcase with rfl | rfl | h12
  · rfl
  · rfl
  · split_ifs <;> first | omega | rfl

/-! ## Claims C7-C10 -/

set_option maxRecDepth 100000 in
/-- C7, counterexample. A datagram of 247 bytes passes the length, cookie and
transaction-id checks; its option area is the triplet {53,1,2} followed by an option
54 that declares 4 value bytes of which only 2 were received; the datagram is
accepted, not rejected. -/
theorem readResponses_truncated_option_counterexample :
    247 ≤ (inBuffer (mkDatagram 0 0 0 7 magicCookie [53, 1, 2, 54, 4, 192, 168])).length ∧
    specCookieOk
      (received (inBuffer (mkDatagram 0 0 0 7 magicCookie [53, 1, 2, 54, 4, 192, 168])) 247) ∧
    specUint32At
      (received (inBuffer (mkDatagram 0 0 0 7 magicCookie [53, 1, 2, 54, 4, 192, 168])) 247)
      4 = some 7 ∧
    (received (inBuffer (mkDatagram 0 0 0 7 magicCookie [53, 1, 2, 54, 4, 192, 168]))
      247).drop 240 = encodeTriplets [(53, [2])] ++ 54 :: 4 :: [192, 168] ∧
    [192, 168].length < 4 ∧
    accepts (inBuffer (mkDatagram 0 0 0 7 magicCookie [53, 1, 2, 54, 4, 192, 168])) 247 7 ∧
    ¬ rejects (inBuffer (mkDatagram 0 0 0 7 magicCookie [53, 1, 2, 54, 4, 192, 168])) 247 7 := by
  refine ⟨by decide, by decide, by decide, by decide, by decide, by decide, by decide⟩

/-- C7, amended. A datagram whose option area, read as consecutive triplets from
offset 240, reaches a triplet whose declared length runs past the end of the
received data before it reaches the End option or an option 53 that carries a
value, is rejected, and every index read is inside the received data. The triplets
`pre` in front are complete; the triplet of type `t` declares `len` value bytes and
only `rest` is left. -/
theorem readResponses_rejects_truncated_option (buf : List Nat) (n xid : Nat)
    (pre : List (Nat × List Nat)) (t len : Nat) (rest : List Nat)
    (h : n ≤ buf.length)
    (hpre : ∀ p ∈ pre, p.1 ≠ 255 ∧ (p.1 = 53 → p.2 = []))
    (ht : t ≠ 255) (hrun : rest.length < len)
    (hopts : (received buf n).drop 240 = encodeTriplets pre ++ t :: len :: rest) :
    rejects buf n xid ∧ ∀ r ∈ (validate buf n xid).reads, r < n := by
  refine ⟨?_, fun r hr => validate_reads buf n xid r hr⟩
  have hm : specMessageType (specTriplets ((received buf n).drop 240)) = none := by
    rw [hopts, specTriplets_encode_append _ _ (fun p hp => (hpre p hp).1),
      specMessageType_append _ _ (fun p hp => (hpre p hp).2),
      specTriplets_cons_cons, if_neg ht, if_neg (by omega)]
    rfl
  rw [rejects_iff_not_accepts xid h, accepts_iff_spec xid h]
  rintro ⟨_, _, _, h2⟩
  rw [hm] at h2
  exact absurd h2 (by simp)

set_option maxRecDepth 100000 in
/-- Witness for C7 amended: the truncated option 54 comes before the message type. -/
theorem readResponses_rejects_truncated_option_witness :
    rejects (inBuffer (mkDatagram 0 0 0 7 magicCookie [12, 2, 104, 105, 54, 4, 192, 168]))
      248 7 ∧
    ∀ r ∈ (validate (inBuffer (mkDatagram 0 0 0 7 magicCookie
      [12, 2, 104, 105, 54, 4, 192, 168])) 248 7).reads, r < 248 :=
  readResponses_rejects_truncated_option
    (inBuffer (mkDatagram 0 0 0 7 magicCookie [12, 2, 104, 105, 54, 4, 192, 168])) 248 7
    [(12, [104, 105])] 54 4 [192, 168] (by decide) (by decide) (by decide) (by decide)
    (by decide)

set_option maxRecDepth 100000 in
/-- C8. For a hardware address of at least 6 bytes and a 32-bit transaction id,
`buildDiscoverPacket` returns a packet of at least 300 bytes whose bytes 236..239
are `0x63 0x82 0x53 0x63` and whose bytes 4..7, read with
`binary.BigEndian.Uint32`, give back the transaction id; they are its four
base-256 digits, most significant first. -/
theorem buildDiscoverPacket_shape (hw : List Nat) (xid : Nat)
    (hhw : 6 ≤ hw.length) (hx : xid < 2 ^ 32) :
    ∃ packet, buildDiscoverPacket hw xid = .done packet ∧
      300 ≤ packet.length ∧
      (packet.drop 236).take 4 = [0x63, 0x82, 0x53, 0x63] ∧
      (bigEndianUint32 packet 4).outcome = .done xid ∧
      ∃ b0 b1 b2 b3, (packet.drop 4).take 4 = [b0, b1, b2, b3] ∧
        b0 * 2 ^ 24 + b1 * 2 ^ 16 + b2 * 2 ^ 8 + b3 = xid := by
  match hw, hhw with
  | a :: b :: c :: d :: e :: f :: tl, _ =>
    refine ⟨_, buildDiscoverPacket_long a b c d e f tl xid, by simp [magicCookie], rfl, ?_,
      _, _, _, _, rfl, ?_⟩
    · rw [bigEndianUint32_outcome (by simp [magicCookie])]
      exact congrArg Outcome.done (be32_putUint32 xid hx)
    · simp only [Nat.shiftRight_eq_div_pow]
      omega

/-- Witness for C8: a 6-byte address and the transaction id `0x12345678`. -/
theorem buildDiscoverPacket_shape_witness :
    ∃ packet, buildDiscoverPacket [222, 173, 190, 239, 0, 1] 305419896 = .done packet ∧
      300 ≤ packet.length ∧
      (packet.drop 236).take 4 = [0x63, 0x82, 0x53, 0x63] ∧
      (bigEndianUint32 packet 4).outcome = .done 305419896 ∧
      ∃ b0 b1 b2 b3, (packet.drop 4).take 4 = [b0, b1, b2, b3] ∧
        b0 * 2 ^ 24 + b1 * 2 ^ 16 + b2 * 2 ^ 8 + b3 = 305419896 :=
  buildDiscoverPacket_shape [222, 173, 190, 239, 0, 1] 305419896 (by decide) (by decide)

set_option maxRecDepth 100000 in
/-- C9. For every hardware address and every transaction id, `buildDiscoverPacket`
returns a packet of exactly 300 bytes with bytes 0..3 = 1,1,6,0, bytes 10..11 =
`0x80`,`0x00`, bytes 240..249 = 53,1,1,55,4,1,3,6,15,255, and every byte outside
these, the transaction-id field 4..7, the hardware-address field 28..33 and the
cookie 236..239 equal to zero. -/
theorem buildDiscoverPacket_layout (hw : List Nat) (xid : Nat) :
    ∃ packet, buildDiscoverPacket hw xid = .done packet ∧
      packet.length = 300 ∧
      packet.take 4 = [1, 1, 6, 0] ∧
      (packet.drop 10).take 2 = [0x80, 0x00] ∧
      (packet.drop 240).take 10 = [53, 1, 1, 55, 4, 1, 3, 6, 15, 255] ∧
      ∀ i, i < 300 → ¬ i ≤ 3 → ¬ (4 ≤ i ∧ i ≤ 7) → ¬ (10 ≤ i ∧ i ≤ 11) →
        ¬ (28 ≤ i ∧ i ≤ 33) → ¬ (236 ≤ i ∧ i ≤ 239) → ¬ (240 ≤ i ∧ i ≤ 249) →
        packet[i]? = some 0 := by
  by_cases h : 6 ≤ hw.length
  · match hw, h with
    | a :: b :: c :: d :: e :: f :: tl, _ =>
      exact ⟨_, buildDiscoverPacket_long a b c d e f tl xid, rfl, rfl, rfl, rfl,
        layout_zero_elsewhere _ _ _ _ [a, b, c, d, e, f] rfl⟩
  · exact ⟨_, buildDiscoverPacket_short hw xid (by omega), rfl, rfl, rfl, rfl,
      layout_zero_elsewhere _ _ _ _ (List.replicate 6 0) rfl⟩

set_option maxRecDepth 100000 in
/-- C10. `buildDiscoverPacket` returns a packet for every hardware address (absent,
shorter than 6 bytes, of 6 bytes or longer) and never fails; with at least 6 bytes
of address, bytes 28..33 of the packet are its first 6 bytes, otherwise bytes 28..33
are zero; bytes 34..43 are zero in both cases. -/
theorem buildDiscoverPacket_chaddr (hw : List Nat) (xid : Nat) :
    ∃ packet, buildDiscoverPacket hw xid = .done packet ∧
      (6 ≤ hw.length → (packet.drop 28).take 6 = hw.take 6) ∧
      (hw.length < 6 → (packet.drop 28).take 6 = [0, 0, 0, 0, 0, 0]) ∧
      (packet.drop 34).take 10 = [0, 0, 0, 0, 0, 0, 0, 0, 0, 0] := by
  by_cases h : 6 ≤ hw.length
  · match hw, h with
    | a :: b :: c :: d :: e :: f :: tl, _ =>
      refine ⟨_, buildDiscoverPacket_long a b c d e f tl xid, fun _ => rfl, ?_, rfl⟩
      intro hlt
      simp only [List.length_cons] at hlt
      omega
  · exact ⟨_, buildDiscoverPacket_short hw xid (by omega), fun h6 => absurd h6 h,
      fun _ => rfl, rfl⟩

/-! ## The verdict depends on the received bytes only -/

theorem accepts_congr {b1 b2 : List Nat} {n : Nat} (xid : Nat) (h1 : n ≤ b1.length)
    (h2 : n ≤ b2.length) (hr : received b1 n = received b2 n) :
    accepts b1 n xid ↔ accepts b2 n xid := by
  rw [accepts_iff_spec xid h1, accepts_iff_spec xid h2, hr]

theorem readFromUDP_length (buf data : List Nat) :
    (readFromUDP buf data).1.length = buf.length := by
  simp only [readFromUDP, List.length_append, List.length_take, List.length_drop]
  omega

theorem readFromUDP_le (buf data : List Nat) :
    (readFromUDP buf data).2 ≤ (readFromUDP buf data).1.length := by
  rw [readFromUDP_length]
  simp only [readFromUDP]
  omega

theorem readFromUDP_received (buf data : List Nat) :
    received (readFromUDP buf data).1 (readFromUDP buf data).2 =
      data.take (min data.length buf.length) := by
  simp only [readFromUDP, received]
  rw [List.take_append_of_le_length (by simp)]
  simp

/-- After a read into a buffer of `recvBufSize` bytes the datagram is accepted
exactly when it is a valid OFFER, whatever the buffer held before. -/
theorem accepts_readFromUDP (xid : Nat) (buf data : List Nat) (hb : buf.length = recvBufSize) :
    accepts (readFromUDP buf data).1 (readFromUDP buf data).2 xid ↔ validOffer xid data := by
  unfold validOffer
  have hn : (readFromUDP buf data).2 = min data.length recvBufSize := by
    simp [readFromUDP, hb]
  have h2 : min data.length recvBufSize ≤ (data.take recvBufSize).length := by
    simp only [List.length_take]; omega
  have h1 := readFromUDP_le buf data
  rw [hn] at h1
  rw [hn]
  apply accepts_congr xid h1 h2
  have hr := readFromUDP_received buf data
  rw [hn, hb] at hr
  rw [hr]
  simp only [received, List.take_take]
  congr 1
  omega

/-! ## The read loop folds `addServer` over the valid OFFERs -/

theorem readLoop_eq (xid : Nat) :
    ∀ (conn : List ReadResult) (buf : List Nat) (st : Tally), buf.length = recvBufSize →
      readLoop xid conn buf st = .done ((offerAddrs xid conn).foldl addServer st) := by
  intro conn
  induction conn with
  | nil => intro buf st _; rfl
  | cons r conn ih =>
    intro buf st hb
    cases r with
    | timeout => rfl
    | otherError =>
      simp only [readLoop, offerAddrs]
      exact ih buf st hb
    | datagram data serverIP =>
      simp only [readLoop, offerAddrs]
      rw [handleDatagram_eq xid st serverIP (readFromUDP_le buf data)]
      have hlen : (readFromUDP buf data).1.length = recvBufSize := by
        rw [readFromUDP_length, hb]
      by_cases hv : validOffer xid data
      · rw [if_pos ((accepts_readFromUDP xid buf data hb).mpr hv), if_pos hv]
        simp only [List.foldl_cons]
        exact ih _ _ hlen
      · rw [if_neg (fun h => hv ((accepts_readFromUDP xid buf data hb).mp h)), if_neg hv]
        exact ih _ _ hlen

theorem readResponses_eq (conn : List ReadResult) (xid : Nat) (servers : List String) :
    readResponses conn xid servers =
      .done (((offerAddrs xid conn).foldl addServer ⟨servers, 0⟩).found,
        ((offerAddrs xid conn).foldl addServer ⟨servers, 0⟩).servers) := by
  unfold readResponses
  rw [readLoop_eq xid conn _ _ (by simp)]

/-! ## Folding `addServer` -/

theorem addServer_of_mem {st : Tally} {a : String} (h : a ∈ st.servers) :
    addServer st a = st := by
  unfold addServer; rw [if_pos h]

theorem addServer_of_not_mem {st : Tally} {a : String} (h : a ∉ st.servers) :
    addServer st a = ⟨a :: st.servers, st.found + 1⟩ := by
  unfold addServer; rw [if_neg h]

theorem mem_foldl_addServer (l : List String) :
    ∀ (st : Tally) (a : String),
      a ∈ (l.foldl addServer st).servers ↔ a ∈ st.servers ∨ a ∈ l := by
  induction l with
  | nil => intro st a; simp
  | cons x l ih =>
    intro st a
    rw [List.foldl_cons, ih]
    unfold addServer
    by_cases hx : x ∈ st.servers
    · rw [if_pos hx]
      constructor
      · rintro (h | h)
        · exact Or.inl h
        · exact Or.inr (List.mem_cons_of_mem _ h)
      · rintro (h | h)
        · exact Or.inl h
        · rcases List.mem_cons.mp h with rfl | h
          · exact Or.inl hx
          · exact Or.inr h
    · rw [if_neg hx]
      simp only [List.mem_cons]
      tauto

/-- The servers after a fold are new addresses put in front of the old list; the
new ones are pairwise different, none was in the old list, and `found` counts them. -/
theorem foldl_addServer_shape (l : List String) :
    ∀ (st : Tally), ∃ new : List String,
      (l.foldl addServer st).servers = new ++ st.servers ∧
      (l.foldl addServer st).found = st.found + new.length ∧
      new.Nodup ∧ ∀ a ∈ new, a ∉ st.servers := by
  induction l with
  | nil => intro st; exact ⟨[], by simp⟩
  | cons x l ih =>
    intro st
    rw [List.foldl_cons]
    by_cases hx : x ∈ st.servers
    · rw [addServer_of_mem hx]
      exact ih st
    · rw [addServer_of_not_mem hx]
      obtain ⟨new, hs, hf, hnd, hdis⟩ := ih ⟨x :: st.servers, st.found + 1⟩
      refine ⟨new ++ [x], ?_, ?_, ?_, ?_⟩
      · rw [hs]; simp
      · rw [hf]; simp; omega
      · rw [List.nodup_append]
        refine ⟨hnd, List.nodup_singleton x, ?_⟩
        intro a ha hax
        rw [List.mem_singleton] at hax
        subst hax
        exact hdis a ha (List.mem_cons_self _ _)
      · intro a ha
        rcases List.mem_append.mp ha with h | h
        · exact fun hmem => hdis a h (List.mem_cons_of_mem _ hmem)
        · rw [List.mem_singleton] at h
          subst h
          exact hx

theorem foldl_addServer_of_subset (l : List String) :
    ∀ (st : Tally), (∀ a ∈ l, a ∈ st.servers) → l.foldl addServer st = st := by
  induction l with
  | nil => intro st _; rfl
  | cons x l ih =>
    intro st h
    have hx : x ∈ st.servers := h x (List.mem_cons_self _ _)
    rw [List.foldl_cons]
    rw [addServer_of_mem hx]
    exact ih st (fun a ha => h a (List.mem_cons_of_mem _ ha))

/-! ## The valid OFFERs of an attempt -/

theorem mem_offerAddrs (xid : Nat) (a : String) :
    ∀ conn : List ReadResult,
      a ∈ offerAddrs xid conn ↔
        ∃ data, ReadResult.datagram data a ∈ beforeTimeout conn ∧ validOffer xid data := by
  intro conn
  induction conn with
  | nil => simp [offerAddrs, beforeTimeout]
  | cons r conn ih =>
    cases r with
    | timeout => simp [offerAddrs, beforeTimeout]
    | otherError =>
      simp only [offerAddrs, beforeTimeout, List.mem_cons, ih]
      constructor
      · rintro ⟨data, h, hv⟩; exact ⟨data, Or.inr h, hv⟩
      · rintro ⟨data, h | h, hv⟩
        · exact absurd h (by simp)
        · exact ⟨data, h, hv⟩
    | datagram d ip =>
      simp only [offerAddrs, beforeTimeout]
      by_cases hv : validOffer xid d
      · rw [if_pos hv, List.mem_cons, ih]
        constructor
        · rintro (rfl | ⟨data, h, hd⟩)
          · exact ⟨d, List.mem_cons_self _ _, hv⟩
          · exact ⟨data, List.mem_cons_of_mem _ h, hd⟩
        · rintro ⟨data, h, hd⟩
          rcases List.mem_cons.mp h with heq | h
          · injection heq with h1 h2
            exact Or.inl h2
          · exact Or.inr ⟨data, h, hd⟩
      · rw [if_neg hv, ih]
        constructor
        · rintro ⟨data, h, hd⟩; exact ⟨data, List.mem_cons_of_mem _ h, hd⟩
        · rintro ⟨data, h, hd⟩
          rcases List.mem_cons.mp h with heq | h
          · injection heq with h1 h2
            subst h1
            exact absurd hd hv
          · exact ⟨data, h, hd⟩

theorem offerAddrs_append_congr (xid : Nat) (l1 l2 : List ReadResult)
    (h : offerAddrs xid l1 = offerAddrs xid l2) :
    ∀ pre : List ReadResult, offerAddrs xid (pre ++ l1) = offerAddrs xid (pre ++ l2) := by
  intro pre
  induction pre with
  | nil => exact h
  | cons r pre ih =>
    cases r with
    | timeout => rfl
    | otherError => simpa [offerAddrs] using ih
    | datagram d ip =>
      show offerAddrs xid (ReadResult.datagram d ip :: (pre ++ l1)) =
        offerAddrs xid (ReadResult.datagram d ip :: (pre ++ l2))
      simp only [offerAddrs, ih]

theorem offerAddrs_nil_of_no_datagram (xid : Nat) :
    ∀ conn : List ReadResult,
      (∀ data a, ReadResult.datagram data a ∉ beforeTimeout conn) → offerAddrs xid conn = [] := by
  intro conn
  induction conn with
  | nil => intro _; rfl
  | cons r conn ih =>
    intro h
    cases r with
    | timeout => rfl
    | otherError =>
      simp only [offerAddrs]
      exact ih (fun data a hm => h data a (by simp [beforeTimeout, hm]))
    | datagram d ip =>
      exact absurd (List.mem_cons_self _ _) (h d ip)

/-! ## Claims C11 and C13 -/

/-- C11. One attempt, `readResponses` on an initial server set and a sequence of read
results, ends normally, and its final server set is the initial set united with
the sender addresses of the datagrams read before the first timeout that are valid
OFFERs for the transaction id. So no address leaves the set, and without a
datagram before the timeout the set is the initial one. -/
theorem readResponses_server_set (conn : List ReadResult) (xid : Nat)
    (servers : List String) :
    ∃ found final, readResponses conn xid servers = .done (found, final) ∧
      (∀ a, a ∈ final ↔
        a ∈ servers ∨
          ∃ data, ReadResult.datagram data a ∈ beforeTimeout conn ∧ validOffer xid data) ∧
      (∀ a ∈ servers, a ∈ final) ∧
      ((∀ data a, ReadResult.datagram data a ∉ beforeTimeout conn) → final = servers) := by
  refine ⟨_, _, readResponses_eq conn xid servers, ?_, ?_, ?_⟩
  · intro a
    rw [mem_foldl_addServer, mem_offerAddrs]
  · intro a ha
    rw [mem_foldl_addServer]
    exact Or.inl ha
  · intro h
    rw [offerAddrs_nil_of_no_datagram xid conn h]
    rfl

/-- C13. The integer `readResponses` returns is the number of addresses of the
final set that were not in the initial set: the final set has that many elements
more than the initial one. When every valid OFFER comes from an address already
present the result is 0. -/
theorem readResponses_found_count (conn : List ReadResult) (xid : Nat)
    (servers : List String) :
    ∃ found final, readResponses conn xid servers = .done (found, final) ∧
      (final.toFinset \ servers.toFinset).card = found ∧
      final.toFinset.card = servers.toFinset.card + found ∧
      final.length = servers.length + found ∧
      ((∀ a ∈ offerAddrs xid conn, a ∈ servers) → found = 0) := by
  refine ⟨_, _, readResponses_eq conn xid servers, ?_⟩
  obtain ⟨new, hs, hf, hnd, hdis⟩ := foldl_addServer_shape (offerAddrs xid conn) ⟨servers, 0⟩
  simp only at hs hf hdis
  have hdisj : Disjoint new.toFinset servers.toFinset := by
    rw [Finset.disjoint_left]
    intro a ha hs'
    exact hdis a (List.mem_toFinset.mp ha) (List.mem_toFinset.mp hs')
  have hcard : new.toFinset.card = new.length := List.toFinset_card_of_nodup hnd
  rw [hs, hf]
  refine ⟨?_, ?_, ?_, ?_⟩
  · rw [List.toFinset_append, Finset.union_sdiff_right, Finset.sdiff_eq_self_of_disjoint hdisj,
      hcard]
    omega
  · rw [List.toFinset_append, Finset.card_union_of_disjoint hdisj, hcard]
    omega
  · simp; omega
  · intro hall
    have := foldl_addServer_of_subset (offerAddrs xid conn) ⟨servers, 0⟩ hall
    rw [this] at hf
    simp only at hf
    omega

/-! ## The attempt loop of `main` -/

/-- What an attempt leaves behind, given what the network does in it. -/
theorem attemptBody_eq (t r : Int) (hw : List Nat) (xid : Nat) (env : AttemptEnv) (run : Run)
    (hr : r ≠ 0) :
    attemptBody t r hw xid env run =
      .done (match env with
        | .socketError => run
        | .sendError => run
        | .listening conn =>
          { servers := ((offerAddrs xid conn).foldl addServer ⟨run.servers, 0⟩).servers,
            budgets := Int.tdiv t r :: run.budgets }) := by
  cases env with
  | socketError => rfl
  | sendError =>
    simp only [attemptBody, buildDiscoverPacket_eq, bind, Outcome.andThen, pure]
  | listening conn =>
    simp only [attemptBody, buildDiscoverPacket_eq, goDiv, if_neg hr, readResponses_eq, bind,
      Outcome.andThen, pure]

/-- An invariant of the attempt loop that every attempt preserves holds when the
loop ends, and the loop ends within its budget. -/
theorem attemptLoop_invariant (t r : Int) (hw : List Nat) (xid : Nat)
    (envs : Nat → AttemptEnv) (P : Int → Run → Prop)
    (hstep : ∀ (a : Int) (run run' : Run), 0 ≤ a → a < r → P a run →
      attemptBody t r hw xid (envs a.toNat) run = .done run' → P (a + 1) run') :
    ∀ (fuel : Nat) (a : Int) (run : Run), 0 ≤ a → a ≤ r → (r - a).toNat ≤ fuel → P a run →
      ∃ run', attemptLoop t r hw xid envs fuel a run = .done run' ∧ P r run' := by
  intro fuel
  induction fuel with
  | zero =>
    intro a run h0 har hf hP
    have : a = r := by omega
    subst this
    exact ⟨run, by simp [attemptLoop], hP⟩
  | succ fuel ih =>
    intro a run h0 har hf hP
    unfold attemptLoop
    by_cases hlt : a < r
    · rw [if_pos hlt]
      have hr : r ≠ 0 := by omega
      have hb := attemptBody_eq t r hw xid (envs a.toNat) run hr
      rw [hb]
      have hP' := hstep a run _ h0 hlt hP hb
      exact ih (a + 1) _ (by omega) (by omega) (by omega) hP'
    · have : a = r := by omega
      subst this
      rw [if_neg hlt]
      exact ⟨run, rfl, hP⟩

theorem discover_invariant (t r : Int) (hw : List Nat) (xid : Nat)
    (envs : Nat → AttemptEnv) (P : Int → Run → Prop) (hr : 0 ≤ r)
    (h0 : P 0 { servers := [], budgets := [] })
    (hstep : ∀ (a : Int) (run run' : Run), 0 ≤ a → a < r → P a run →
      attemptBody t r hw xid (envs a.toNat) run = .done run' → P (a + 1) run') :
    ∃ run, discover t r hw xid envs = .done run ∧ P r run := by
  unfold discover
  exact attemptLoop_invariant t r hw xid envs P hstep r.toNat 0 _ (le_refl 0) hr (by omega) h0

theorem discover_of_nonpos (t r : Int) (hw : List Nat) (xid : Nat)
    (envs : Nat → AttemptEnv) (hr : r ≤ 0) :
    discover t r hw xid envs = .done { servers := [], budgets := [] } := by
  unfold discover
  have hz : r.toNat = 0 := by omega
  rw [hz]
  simp only [attemptLoop]
  rw [if_neg (by omega)]

/-! ## Claims C12, C14 and C15 -/

theorem beforeTimeout_append (l : List ReadResult) :
    ∀ pre : List ReadResult, ReadResult.timeout ∉ pre →
      beforeTimeout (pre ++ l) = pre ++ beforeTimeout l := by
  intro pre
  induction pre with
  | nil => intro _; rfl
  | cons r pre ih =>
    intro h
    have hr : r ≠ ReadResult.timeout := fun e => h (e ▸ List.mem_cons_self _ _)
    have ih' := ih (fun hm => h (List.mem_cons_of_mem _ hm))
    cases r with
    | timeout => exact absurd rfl hr
    | otherError =>
      simp only [List.cons_append, beforeTimeout]
      exact congrArg _ ih'
    | datagram d ip =>
      simp only [List.cons_append, beforeTimeout]
      exact congrArg _ ih'

theorem readResponses_congr (xid : Nat) (servers : List String) (l1 l2 : List ReadResult)
    (h : offerAddrs xid l1 = offerAddrs xid l2) :
    readResponses l1 xid servers = readResponses l2 xid servers := by
  rw [readResponses_eq, readResponses_eq, h]

/-- C12. Deduplication within and across attempts. A valid OFFER from an address
that is already in the server set leaves the state of `readResponses` as it is; a
call on a set without repetition ends with a set without repetition, and so does
every run of the attempt loop of `main`, which starts from the empty set. In
particular valid OFFERs from `A` and `B` in one attempt give the set {A, B} and the
count 2, and a further valid OFFER from `A` in a later attempt leaves {A, B} and
returns 0. -/
theorem readResponses_dedup (xid : Nat) :
    (∀ (st : Tally) (buf data : List Nat) (a : String), buf.length = recvBufSize →
      validOffer xid data → a ∈ st.servers →
      handleDatagram xid st (readFromUDP buf data).1 (readFromUDP buf data).2 a = .done st) ∧
    (∀ (conn : List ReadResult) (servers : List String), servers.Nodup →
      ∃ found final, readResponses conn xid servers = .done (found, final) ∧ final.Nodup) ∧
    (∀ (t r : Int) (hw : List Nat) (envs : Nat → AttemptEnv),
      ∃ run, discover t r hw xid envs = .done run ∧ run.servers.Nodup) ∧
    (∀ (dA dB dA' : List Nat) (A B : String), validOffer xid dA → validOffer xid dB →
      validOffer xid dA' → A ≠ B →
      readResponses [.datagram dA A, .datagram dB B] xid [] = .done (2, [B, A]) ∧
      readResponses [.datagram dA' A] xid [B, A] = .done (0, [B, A])) := by
  have hcall : ∀ (conn : List ReadResult) (servers : List String), servers.Nodup →
      ((offerAddrs xid conn).foldl addServer ⟨servers, 0⟩).servers.Nodup := by
    intro conn servers hnd
    obtain ⟨new, hs, _, hnew, hdis⟩ := foldl_addServer_shape (offerAddrs xid conn) ⟨servers, 0⟩
    rw [hs, List.nodup_append]
    exact ⟨hnew, hnd, fun a ha hb => hdis a ha hb⟩
  refine ⟨?_, ?_, ?_, ?_⟩
  · intro st buf data a hb hv ha
    rw [handleDatagram_eq xid st a (readFromUDP_le buf data),
      if_pos ((accepts_readFromUDP xid buf data hb).mpr hv), addServer_of_mem ha]
  · intro conn servers hnd
    exact ⟨_, _, readResponses_eq conn xid servers, hcall conn servers hnd⟩
  · intro t r hw envs
    by_cases hr : r ≤ 0
    · exact ⟨_, discover_of_nonpos t r hw xid envs hr, List.nodup_nil⟩
    · refine discover_invariant t r hw xid envs (fun _ run => run.servers.Nodup) (by omega)
        List.nodup_nil ?_
      intro a run run' _ _ hP hb
      rw [attemptBody_eq t r hw xid _ run (by omega)] at hb
      injection hb with hb
      subst hb
      cases envs a.toNat with
      | socketError => exact hP
      | sendError => exact hP
      | listening conn => exact hcall conn run.servers hP
  · intro dA dB dA' A B hA hB hA' hne
    constructor
    · rw [readResponses_eq]
      simp only [offerAddrs, if_pos hA, if_pos hB, List.foldl_cons, List.foldl_nil]
      have h1 : addServer ⟨[], 0⟩ A = ⟨[A], 1⟩ := addServer_of_not_mem (List.not_mem_nil _)
      have h2 : addServer ⟨[A], 1⟩ B = ⟨[B, A], 2⟩ :=
        addServer_of_not_mem (fun h => hne (List.mem_singleton.mp h).symm)
      rw [h1, h2]
    · rw [readResponses_eq]
      simp only [offerAddrs, if_pos hA', List.foldl_cons, List.foldl_nil]
      have h3 : addServer ⟨[B, A], 0⟩ A = ⟨[B, A], 0⟩ :=
        addServer_of_mem (List.mem_cons_of_mem _ (List.mem_singleton.mpr rfl))
      rw [h3]

set_option maxRecDepth 100000 in
/-- Witness for C12: the scenario with two copies of a well-formed OFFER for
transaction id 7 sent from two addresses, then a third one from the first address. -/
theorem readResponses_dedup_witness :
    validOffer 7 sampleOffer ∧
    readResponses [.datagram sampleOffer "10.0.0.1", .datagram sampleOffer "10.0.0.2"] 7 [] =
      .done (2, ["10.0.0.2", "10.0.0.1"]) ∧
    readResponses [.datagram sampleOffer "10.0.0.1"] 7 ["10.0.0.2", "10.0.0.1"] =
      .done (0, ["10.0.0.2", "10.0.0.1"]) :=
  ⟨by decide,
   ((readResponses_dedup 7).2.2.2 sampleOffer sampleOffer sampleOffer "10.0.0.1" "10.0.0.2"
      (by decide) (by decide) (by decide) (by decide)).1,
   ((readResponses_dedup 7).2.2.2 sampleOffer sampleOffer sampleOffer "10.0.0.1" "10.0.0.2"
      (by decide) (by decide) (by decide) (by decide)).2⟩

/-- C14. The result of an attempt, server set and count, does not change when a
datagram that fails validation is deleted from the sequence of read results, when a
read error that is not a timeout is deleted, or when everything behind a timeout
is deleted: the loop goes on after a rejected datagram and after such an error,
and a timeout ends it. -/
theorem readResponses_ignores_rejected (pre post : List ReadResult) (xid : Nat)
    (servers : List String) :
    (∀ (data : List Nat) (a : String), ¬ validOffer xid data →
      readResponses (pre ++ .datagram data a :: post) xid servers =
        readResponses (pre ++ post) xid servers) ∧
    readResponses (pre ++ .otherError :: post) xid servers =
      readResponses (pre ++ post) xid servers ∧
    readResponses (pre ++ .timeout :: post) xid servers =
      readResponses (pre ++ [.timeout]) xid servers ∧
    readResponses (pre ++ [.timeout]) xid servers = readResponses pre xid servers := by
  refine ⟨?_, ?_, ?_, ?_⟩
  · intro data a hv
    apply readResponses_congr
    apply offerAddrs_append_congr
    simp only [offerAddrs, if_neg hv]
  · apply readResponses_congr
    apply offerAddrs_append_congr
    simp only [offerAddrs]
  · apply readResponses_congr
    apply offerAddrs_append_congr
    simp only [offerAddrs]
  · apply readResponses_congr
    have h := offerAddrs_append_congr xid [.timeout] [] (by simp only [offerAddrs]) pre
    rw [List.append_nil] at h
    exact h

set_option maxRecDepth 100000 in
/-- C15, counterexample. The first read fails with an error that is not a timeout,
then a valid OFFER arrives from 192.0.2.1, then the read times out: the attempt
adds 192.0.2.1 to the empty server set and returns 1. -/
theorem readResponses_error_counterexample :
    validOffer 7 sampleOffer ∧
    readResponses [.otherError, .datagram sampleOffer "192.0.2.1", .timeout] 7 [] =
      .done (1, ["192.0.2.1"]) := by
  refine ⟨by decide, by decide⟩

/-- C15, amended. A receive failure other than a timeout does not abandon the
attempt: `readResponses` goes on reading, the result is the one of the same
sequence without the error, and a valid OFFER that arrives after the error and
before the first timeout is in the server set at the end of that attempt. -/
theorem readResponses_continues_after_error (pre post : List ReadResult) (xid : Nat)
    (servers : List String) (data : List Nat) (a : String)
    (hpre : ReadResult.timeout ∉ pre)
    (hin : ReadResult.datagram data a ∈ beforeTimeout post)
    (hv : validOffer xid data) :
    readResponses (pre ++ .otherError :: post) xid servers =
      readResponses (pre ++ post) xid servers ∧
    ∃ found final, readResponses (pre ++ .otherError :: post) xid servers = .done (found, final) ∧
      a ∈ final := by
  refine ⟨?_, _, _, readResponses_eq _ xid servers, ?_⟩
  · apply readResponses_congr
    apply offerAddrs_append_congr
    simp only [offerAddrs]
  · rw [mem_foldl_addServer, mem_offerAddrs]
    refine Or.inr ⟨data, ?_, hv⟩
    rw [beforeTimeout_append _ pre hpre]
    apply List.mem_append_right
    simp only [beforeTimeout]
    exact List.mem_cons_of_mem _ hin

set_option maxRecDepth 100000 in
/-- Witness for C15 amended: a rejected datagram, the error, then the valid OFFER. -/
theorem readResponses_continues_after_error_witness :
    ∃ found final,
      readResponses ([.datagram [1, 2, 3] "192.0.2.9"] ++
        .otherError :: [.datagram sampleOffer "192.0.2.1", .timeout]) 7 [] =
        .done (found, final) ∧ "192.0.2.1" ∈ final :=
  (readResponses_continues_after_error [.datagram [1, 2, 3] "192.0.2.9"]
    [.datagram sampleOffer "192.0.2.1", .timeout] 7 [] sampleOffer "192.0.2.1"
    (by decide) (by decide) (by decide)).2

/-! ## Claims C16-C17 -/

/-- C16. The failing inputs. The index 0 is given (it is not the default -1) and
is not in 1..1, so selection by index has to fail with the out-of-range error; the
guard `*ifaceIndexFlag > 0` of line 192 skips the index branch instead, whose own
test `idx < 0` and message `out of range (1-%d)` are meant for this case, and
`selectInterface` returns the first interface. In the same way the index -2 is
ignored and the interface is selected by the name `wlan0`. -/
theorem selectInterface_index_below_one :
    (0 : Int) ≠ -1 ∧ ¬ (1 ≤ (0 : Int) ∧ (0 : Int) ≤ 1) ∧
    selectInterface 0 "" [⟨"eth0", [2, 0, 0, 0, 0, 1]⟩] =
      .done (.ok ⟨"eth0", [2, 0, 0, 0, 0, 1]⟩) ∧
    selectInterface (-2) "wlan0" [⟨"eth0", [2, 0, 0, 0, 0, 1]⟩, ⟨"wlan0", [2, 0, 0, 0, 0, 2]⟩] =
      .done (.ok ⟨"wlan0", [2, 0, 0, 0, 0, 2]⟩) := by
  refine ⟨by decide, by decide, by decide, by decide⟩

theorem indexIface_of_lt (l : List Interface) (idx : Int) (h0 : 0 ≤ idx)
    (hlt : idx < l.length) :
    ∃ ifc, l[idx.toNat]? = some ifc ∧ indexIface l idx = .done ifc := by
  have hl : idx.toNat < l.length := by omega
  refine ⟨l[idx.toNat], List.getElem?_eq_getElem hl, ?_⟩
  unfold indexIface
  rw [if_neg (by omega), List.getElem?_eq_getElem hl]

/-- What `selectInterface` returns as the code stands, case by case: the index
branch for a positive index, and for every index below 1 the name branch or, with
no name, the first interface. -/
theorem selectInterface_spec (n : Int) (name : String) (l : List Interface) :
    (0 < n → n ≤ l.length →
      ∃ ifc, l[(n - 1).toNat]? = some ifc ∧ selectInterface n name l = .done (.ok ifc)) ∧
    (0 < n → (l.length : Int) < n →
      selectInterface n name l = .done (.err (.indexOutOfRange n l.length))) ∧
    (n ≤ 0 → name ≠ "" →
      selectInterface n name l =
        .done (match l.find? (fun ifc => ifc.name = name) with
          | some ifc => .ok ifc
          | none => .err (.nameNotFound name))) ∧
    (n ≤ 0 → name = "" →
      selectInterface n name l =
        .done (match l.head? with
          | some ifc => .ok ifc
          | none => .err .noActiveInterfaces)) := by
  refine ⟨?_, ?_, ?_, ?_⟩
  · intro hpos hle
    obtain ⟨ifc, hget, hidx⟩ := indexIface_of_lt l (n - 1) (by omega) (by omega)
    refine ⟨ifc, hget, ?_⟩
    unfold selectInterface
    rw [if_pos hpos]
    simp only
    rw [if_neg (by omega), hidx]
    rfl
  · intro hpos hgt
    unfold selectInterface
    rw [if_pos hpos]
    simp only
    rw [if_pos (by omega)]
  · intro hle hname
    unfold selectInterface
    rw [if_neg (by omega), if_pos hname]
    cases l.find? (fun ifc => ifc.name = name) <;> rfl
  · intro hle hname
    unfold selectInterface
    rw [if_neg (by omega), if_neg (by simpa using hname)]
    cases l with
    | nil => rfl
    | cons ifc rest =>
      have hidx : indexIface (ifc :: rest) 0 = .done ifc := by simp [indexIface]
      rw [if_pos (by simp), hidx]
      rfl

theorem sum_of_all_eq (l : List Int) (c : Int) (h : ∀ b ∈ l, b = c) :
    l.sum = l.length * c := by
  induction l with
  | nil => simp
  | cons x l ih =>
    have hx : x = c := h x (List.mem_cons_self _ _)
    have ih' := ih (fun b hb => h b (List.mem_cons_of_mem _ hb))
    rw [List.sum_cons, ih', hx, List.length_cons]
    push_cast
    ring

/-- C17. With a retry count `r ≥ 1` and a total timeout `t ≥ 0` the attempt loop of
`main` ends normally; every attempt that gets to listen is given the budget `t / r`;
there are at most `r` such attempts, exactly `r` when no socket or send error
occurs; `r * (t / r) ≤ t`, and the budgets handed out add up to at most `t`. The
division is made inside the loop only: with `r ≤ 0` no attempt is made, nothing
is divided, and the run ends with the empty server set. -/
theorem discover_budgets (t r : Int) (hw : List Nat) (xid : Nat)
    (envs : Nat → AttemptEnv) :
    (1 ≤ r → 0 ≤ t →
      ∃ run, discover t r hw xid envs = .done run ∧
        (∀ b ∈ run.budgets, b = t / r) ∧
        (run.budgets.length : Int) ≤ r ∧
        ((∀ i : Nat, (i : Int) < r → ∃ conn, envs i = .listening conn) →
          (run.budgets.length : Int) = r) ∧
        r * (t / r) ≤ t ∧
        run.budgets.sum ≤ t) ∧
    (r ≤ 0 → discover t r hw xid envs = .done { servers := [], budgets := [] }) := by
  refine ⟨?_, discover_of_nonpos t r hw xid envs⟩
  intro hr ht
  have hq : Int.tdiv t r = t / r := Int.tdiv_eq_ediv ht (by omega)
  have hmul : r * (t / r) ≤ t := Int.mul_ediv_self_le (by omega)
  have hq0 : 0 ≤ t / r := Int.ediv_nonneg ht (by omega)
  obtain ⟨run, hrun, hall, hlen, hfull⟩ := discover_invariant t r hw xid envs
    (fun a run => (∀ b ∈ run.budgets, b = t / r) ∧ (run.budgets.length : Int) ≤ a ∧
      ((∀ i : Nat, (i : Int) < a → ∃ conn, envs i = .listening conn) →
        (run.budgets.length : Int) = a))
    (by omega)
    ⟨by simp, by simp, by simp⟩
    (by
      intro a run run' h0 hlt hP hb
      obtain ⟨hall, hlen, hfull⟩ := hP
      rw [attemptBody_eq t r hw xid _ run (by omega)] at hb
      injection hb with hb
      subst hb
      have hcast : ((a.toNat : Nat) : Int) = a := Int.toNat_of_nonneg h0
      cases henv : envs a.toNat with
      | socketError =>
        refine ⟨hall, by simp only; omega, ?_⟩
        intro hlisten
        obtain ⟨conn, hc⟩ := hlisten a.toNat (by omega)
        rw [henv] at hc
        exact absurd hc (by simp)
      | sendError =>
        refine ⟨hall, by simp only; omega, ?_⟩
        intro hlisten
        obtain ⟨conn, hc⟩ := hlisten a.toNat (by omega)
        rw [henv] at hc
        exact absurd hc (by simp)
      | listening conn =>
        refine ⟨?_, ?_, ?_⟩
        · intro b hb
          rcases List.mem_cons.mp hb with rfl | hb
          · exact hq
          · exact hall b hb
        · simp only [List.length_cons]
          push_cast
          omega
        · intro hlisten
          have := hfull (fun i hi => hlisten i (by omega))
          simp only [List.length_cons]
          push_cast
          omega)
  refine ⟨run, hrun, hall, hlen, hfull, hmul, ?_⟩
  rw [sum_of_all_eq run.budgets (t / r) hall]
  calc (run.budgets.length : Int) * (t / r) ≤ r * (t / r) :=
        Int.mul_le_mul_of_nonneg_right hlen hq0
    _ ≤ t := hmul

/-! ## Claims C18-C20 -/

/-- C18. The first option 53 of length at least 1 that the scan reaches decides alone.
For a datagram that passes the length, cookie and transaction-id checks and whose
option area starts with complete triplets `pre`, none of them End and none an
option 53 with a value (an option 53 of length 0 and the Pad byte 0, read as a
type with a length byte, are triplets like any other), followed by an option 53 of
length `1 + |vs|` with first value byte `v` that fits in the received data: the
datagram is accepted exactly when `v = 2`, whatever the further value bytes `vs`
and the bytes `rest` behind the option are. -/
theorem readResponses_first_type_decides (buf : List Nat) (n xid : Nat)
    (pre : List (Nat × List Nat)) (v : Nat) (vs rest : List Nat)
    (h : n ≤ buf.length) (hn : 240 ≤ n)
    (hc : specCookieOk (received buf n))
    (hx : specUint32At (received buf n) 4 = some xid)
    (hpre : ∀ p ∈ pre, p.1 ≠ 255 ∧ (p.1 = 53 → p.2 = []))
    (hopts : (received buf n).drop 240 =
      encodeTriplets pre ++ (53 :: (vs.length + 1) :: v :: vs) ++ rest) :
    (accepts buf n xid ↔ v = 2) ∧ (rejects buf n xid ↔ v ≠ 2) := by
  have hm : specMessageType (specTriplets ((received buf n).drop 240)) = some v := by
    rw [hopts, List.append_assoc, specTriplets_encode_append _ _ (fun p hp => (hpre p hp).1),
      specMessageType_append _ _ (fun p hp => (hpre p hp).2)]
    simp only [List.cons_append]
    rw [specTriplets_cons_cons, if_neg (by decide), if_pos (by simp)]
    simp [specMessageType]
  have hacc : accepts buf n xid ↔ v = 2 := by
    rw [accepts_iff_spec xid h, hm]
    constructor
    · rintro ⟨_, _, _, h2⟩; exact Option.some.inj h2
    · intro hv; exact ⟨hn, hc, hx, by rw [hv]⟩
  refine ⟨hacc, ?_⟩
  rw [rejects_iff_not_accepts xid h, hacc]

set_option maxRecDepth 100000 in
/-- Witness for C18: a Pad byte read as type 0 with length 1, an option 53 of length
0, then option 53 of length 2 with value bytes 5, 2, then {53,1,2} and End: the
datagram is rejected. With first value byte 2 in that place it is accepted. -/
theorem readResponses_first_type_decides_witness :
    rejects (inBuffer (mkDatagram 0 0 0 7 magicCookie
      [0, 1, 99, 53, 0, 53, 2, 5, 2, 53, 1, 2, 255])) 253 7 ∧
    accepts (inBuffer (mkDatagram 0 0 0 7 magicCookie
      [0, 1, 99, 53, 0, 53, 2, 2, 5, 53, 1, 5, 255])) 253 7 :=
  ⟨(readResponses_first_type_decides
      (inBuffer (mkDatagram 0 0 0 7 magicCookie [0, 1, 99, 53, 0, 53, 2, 5, 2, 53, 1, 2, 255]))
      253 7 [(0, [99]), (53, [])] 5 [2] [53, 1, 2, 255]
      (by decide) (by decide) (by decide) (by decide) (by decide) (by decide)).2.mpr (by decide),
   (readResponses_first_type_decides
      (inBuffer (mkDatagram 0 0 0 7 magicCookie [0, 1, 99, 53, 0, 53, 2, 2, 5, 53, 1, 5, 255]))
      253 7 [(0, [99]), (53, [])] 2 [5] [53, 1, 5, 255]
      (by decide) (by decide) (by decide) (by decide) (by decide) (by decide)).1.mpr rfl⟩

theorem own_options_type :
    specMessageType (specTriplets ([53, 1, 1, 55, 4, 1, 3, 6, 15, 255] ++ List.replicate 50 0)) =
      some 1 := by
  simp [specTriplets_cons_cons, specMessageType]

set_option maxRecDepth 100000 in
/-- The packet of `buildDiscoverPacket` seen as a received datagram. -/
theorem own_packet_facts (x0 x1 x2 x3 : Nat) (C : List Nat) (hC : C.length = 6) :
    ([1, 1, 6, 0, x0, x1, x2, x3, 0, 0, 128, 0] ++ List.replicate 16 0 ++ C ++
        List.replicate 202 0 ++ magicCookie ++ [53, 1, 1, 55, 4, 1, 3, 6, 15, 255] ++
        List.replicate 50 0).length = 300 ∧
    specCookieOk ([1, 1, 6, 0, x0, x1, x2, x3, 0, 0, 128, 0] ++ List.replicate 16 0 ++ C ++
        List.replicate 202 0 ++ magicCookie ++ [53, 1, 1, 55, 4, 1, 3, 6, 15, 255] ++
        List.replicate 50 0) ∧
    specUint32At ([1, 1, 6, 0, x0, x1, x2, x3, 0, 0, 128, 0] ++ List.replicate 16 0 ++ C ++
        List.replicate 202 0 ++ magicCookie ++ [53, 1, 1, 55, 4, 1, 3, 6, 15, 255] ++
        List.replicate 50 0) 4 = some (be32 x0 x1 x2 x3) ∧
    ([1, 1, 6, 0, x0, x1, x2, x3, 0, 0, 128, 0] ++ List.replicate 16 0 ++ C ++
        List.replicate 202 0 ++ magicCookie ++ [53, 1, 1, 55, 4, 1, 3, 6, 15, 255] ++
        List.replicate 50 0).drop 240 =
      [53, 1, 1, 55, 4, 1, 3, 6, 15, 255] ++ List.replicate 50 0 := by
  match C, hC with
  | [c0, c1, c2, c3, c4, c5], _ =>
    refine ⟨rfl, ⟨rfl, rfl, rfl, rfl⟩, rfl, rfl⟩

/-- C19. The tool does not count its own broadcast: for every hardware address and
every 32-bit transaction id `x` the packet of `buildDiscoverPacket`, 300 bytes long,
passes the length, cookie and transaction-id checks for the expected id `x`, and the
message type its options carry is 1 (DISCOVER), so it is not a valid OFFER: read
back into the receive buffer it is rejected, the state of the loop stays as it is,
and `readResponses` returns 0 and the server set it was given. -/
theorem buildDiscoverPacket_not_offer (hw : List Nat) (xid : Nat) (hx : xid < 2 ^ 32) :
    ∃ packet, buildDiscoverPacket hw xid = .done packet ∧
      packet.length = 300 ∧ 240 ≤ packet.length ∧
      specCookieOk packet ∧ specUint32At packet 4 = some xid ∧
      specMessageType (specTriplets (packet.drop 240)) = some 1 ∧
      ¬ validOffer xid packet ∧
      (∀ (buf : List Nat) (st : Tally) (ip : String), buf.length = recvBufSize →
        rejects (readFromUDP buf packet).1 (readFromUDP buf packet).2 xid ∧
        handleDatagram xid st (readFromUDP buf packet).1 (readFromUDP buf packet).2 ip =
          .done st) ∧
      (∀ (servers : List String) (ip : String),
        readResponses [.datagram packet ip] xid servers = .done (0, servers)) := by
  obtain ⟨hlen, hcookie, hxid, hdrop⟩ :=
    own_packet_facts ((xid >>> 24) % 256) ((xid >>> 16) % 256) ((xid >>> 8) % 256)
      (xid % 256) (specChaddr hw) (specChaddr_length hw)
  rw [be32_putUint32 xid hx] at hxid
  refine ⟨_, buildDiscoverPacket_eq hw xid, hlen, by rw [hlen]; decide, hcookie, hxid, ?_, ?_⟩
  · rw [hdrop]; exact own_options_type
  · generalize hp : ([1, 1, 6, 0, (xid >>> 24) % 256, (xid >>> 16) % 256, (xid >>> 8) % 256,
        xid % 256, 0, 0, 128, 0] ++ List.replicate 16 0 ++ specChaddr hw ++
      List.replicate 202 0 ++ magicCookie ++ [53, 1, 1, 55, 4, 1, 3, 6, 15, 255] ++
      List.replicate 50 0) = packet at hlen hcookie hxid hdrop
    have hnot : ¬ validOffer xid packet := by
      unfold validOffer
      have htake : packet.take recvBufSize = packet :=
        List.take_of_length_le (by rw [hlen]; decide)
      have hmin : min packet.length recvBufSize = 300 := by rw [hlen]; decide
      rw [htake, hmin, accepts_iff_spec xid (by rw [hlen])]
      rintro ⟨_, _, _, h4⟩
      have hrec : received packet 300 = packet := by
        unfold received
        exact List.take_of_length_le (by rw [hlen])
      rw [hrec, hdrop, own_options_type] at h4
      exact absurd h4 (by decide)
    refine ⟨hnot, ?_, ?_⟩
    · intro buf st ip hb
      have hrej : ¬ accepts (readFromUDP buf packet).1 (readFromUDP buf packet).2 xid :=
        fun hacc => hnot ((accepts_readFromUDP xid buf packet hb).mp hacc)
      refine ⟨(rejects_iff_not_accepts xid (readFromUDP_le buf packet)).mpr hrej, ?_⟩
      rw [handleDatagram_eq xid st ip (readFromUDP_le buf packet), if_neg hrej]
    · intro servers ip
      rw [readResponses_eq]
      simp only [offerAddrs, if_neg hnot, List.foldl_nil]

/-- Witness for C19: the address de:ad:be:ef:00:01 and the transaction id
`0x12345678`. -/
theorem buildDiscoverPacket_not_offer_witness :
    ∃ packet, buildDiscoverPacket [222, 173, 190, 239, 0, 1] 305419896 = .done packet ∧
      ¬ validOffer 305419896 packet ∧
      ∀ (servers : List String) (ip : String),
        readResponses [.datagram packet ip] 305419896 servers = .done (0, servers) := by
  obtain ⟨packet, hb, _, _, _, _, _, hnot, _, hread⟩ :=
    buildDiscoverPacket_not_offer [222, 173, 190, 239, 0, 1] 305419896 (by decide)
  exact ⟨packet, hb, hnot, hread⟩

theorem byteAt_congr {b1 b2 : List Nat} {i : Nat} (h : b1[i]? = b2[i]?) :
    byteAt b1 i = byteAt b2 i := by
  unfold byteAt; rw [h]

theorem options_congr {b1 b2 : List Nat} {n : Nat}
    (h : ∀ i, 240 ≤ i ∧ i < n → b1[i]? = b2[i]?) :
    (received b1 n).drop 240 = (received b2 n).drop 240 := by
  apply List.ext_getElem?
  intro j
  simp only [received, List.getElem?_drop, List.getElem?_take]
  by_cases hj : 240 + j < n
  · rw [if_pos hj, if_pos hj]
    exact h (240 + j) ⟨by omega, hj⟩
  · rw [if_neg hj, if_neg hj]

theorem validate_congr {b1 b2 : List Nat} {n : Nat} (xid : Nat) (h1 : n ≤ b1.length)
    (h2 : n ≤ b2.length)
    (hagree : ∀ i, (4 ≤ i ∧ i ≤ 7) ∨ (236 ≤ i ∧ i ≤ 239) ∨ (240 ≤ i ∧ i < n) →
      b1[i]? = b2[i]?) :
    (validate b1 n xid).outcome = (validate b2 n xid).outcome := by
  rw [validate_outcome xid h1, validate_outcome xid h2]
  have e4 := byteAt_congr (hagree 4 (Or.inl ⟨by omega, by omega⟩))
  have e5 := byteAt_congr (hagree 5 (Or.inl ⟨by omega, by omega⟩))
  have e6 := byteAt_congr (hagree 6 (Or.inl ⟨by omega, by omega⟩))
  have e7 := byteAt_congr (hagree 7 (Or.inl ⟨by omega, by omega⟩))
  have c0 := byteAt_congr (hagree 236 (Or.inr (Or.inl ⟨by omega, by omega⟩)))
  have c1 := byteAt_congr (hagree 237 (Or.inr (Or.inl ⟨by omega, by omega⟩)))
  have c2 := byteAt_congr (hagree 238 (Or.inr (Or.inl ⟨by omega, by omega⟩)))
  have c3 := byteAt_congr (hagree 239 (Or.inr (Or.inl ⟨by omega, by omega⟩)))
  have hs : scannedType b1 n = scannedType b2 n := by
    unfold scannedType
    rw [options_congr (fun i hi => hagree i (Or.inr (Or.inr hi)))]
  rw [e4, e5, e6, e7, c0, c1, c2, c3, hs]

/-- C20. The verdict is a function of the received length, bytes 4..7, bytes
236..239 and bytes 240..n-1: two receive buffers of 1500 bytes that agree at these
positions get the same verdict for every `n ≤ 1500` and every expected transaction
id. In particular a change of a byte at a position `≥ n` (stale content of the
buffer) or in the header fields at 0..3 and 8..235 never changes the verdict. -/
theorem readResponses_verdict_depends_on (b1 b2 : List Nat) (n xid : Nat)
    (h1 : b1.length = recvBufSize) (h2 : b2.length = recvBufSize) (hn : n ≤ recvBufSize)
    (hagree : ∀ i, (4 ≤ i ∧ i ≤ 7) ∨ (236 ≤ i ∧ i ≤ 239) ∨ (240 ≤ i ∧ i < n) →
      b1[i]? = b2[i]?) :
    (validate b1 n xid).outcome = (validate b2 n xid).outcome ∧
    (accepts b1 n xid ↔ accepts b2 n xid) ∧
    (∀ i v : Nat, i < 4 ∨ (8 ≤ i ∧ i < 236) ∨ n ≤ i →
      (validate (b1.set i v) n xid).outcome = (validate b1 n xid).outcome) := by
  have hmain := validate_congr xid (by rw [h1]; exact hn) (by rw [h2]; exact hn) hagree
  refine ⟨hmain, by unfold accepts; rw [hmain], ?_⟩
  intro i v hi
  have hl : n ≤ (b1.set i v).length := by rw [List.length_set, h1]; exact hn
  have hl1 : n ≤ b1.length := by rw [h1]; exact hn
  by_cases h240 : n < 240
  · rw [validate_outcome xid hl, validate_outcome xid hl1]
    have e1 : ∀ p : Prop, ¬ (240 ≤ n ∧ p) := fun p hp => by omega
    simp only [e1, decide_False]
  · apply validate_congr xid hl hl1
    intro j hj
    rw [List.getElem?_set_ne (by omega)]

set_option maxRecDepth 100000 in
/-- Witness for C20: the same OFFER in front of two different stale tails and with
different opcode bytes. -/
theorem readResponses_verdict_depends_on_witness :
    (validate (inBuffer sampleOffer) 244 7).outcome =
      (validate ((sampleOffer ++ List.replicate 1256 0).set 0 2) 244 7).outcome ∧
    accepts ((sampleOffer ++ List.replicate 1256 0).set 0 2) 244 7 :=
  ⟨(readResponses_verdict_depends_on (inBuffer sampleOffer)
      ((sampleOffer ++ List.replicate 1256 0).set 0 2) 244 7
      (by decide) (by decide) (by decide)
      (by
        intro i hi
        have hlt : i < 244 := by omega
        have hpos : 0 ≠ i := by omega
        rw [List.getElem?_set_ne hpos]
        unfold inBuffer
        rw [List.getElem?_append_left (by simpa [sampleOffer, mkDatagram, magicCookie] using hlt),
          List.getElem?_append_left
            (by simpa [sampleOffer, mkDatagram, magicCookie] using hlt)])).1,
   by decide⟩

set_option maxRecDepth 100000 in
/-- Witness for C17: the default flags, 8 s and 3 attempts, with no reply at all. -/
theorem discover_budgets_witness :
    discover 8000000000 3 [2, 0, 0, 0, 0, 1] 7 (fun _ => .listening []) =
      .done { servers := [], budgets := [2666666666, 2666666666, 2666666666] } ∧
    ∃ run, discover 8000000000 3 [2, 0, 0, 0, 0, 1] 7 (fun _ => .listening []) = .done run ∧
      (∀ b ∈ run.budgets, b = 8000000000 / 3) ∧
      (run.budgets.length : Int) ≤ 3 ∧
      ((∀ i : Nat, (i : Int) < 3 → ∃ conn, (fun _ => AttemptEnv.listening []) i = .listening conn) →
        (run.budgets.length : Int) = 3) ∧
      (3 : Int) * (8000000000 / 3) ≤ 8000000000 ∧
      run.budgets.sum ≤ 8000000000 :=
  ⟨by decide,
   (discover_budgets 8000000000 3 [2, 0, 0, 0, 0, 1] 7 (fun _ => .listening [])).1
     (by decide) (by decide)⟩

end DhcpDiscover
